import Mathlib

/-!
Verification development for the rewind finalization pipeline.

The definitions below are a shallow embedding of the TypeScript source:
the heuristic workflow segmenter (`workflowSegmenter.ts`, in-memory
variant), the screen canonicalizer and `sanitizeJSON` (`llm.ts` /
`screenCanonicalizer.ts`), the collaborator-driven instance segmenter
(`instanceSegmenter.ts`), and the orchestrating finalization pipeline
(`pipeline/index.ts`) with its sequential persistence layer (`db.ts`).

Collaborator (LLM) round trips are modelled as explicit parameters of
type `Except Unit response`: `Except.error` stands for a thrown error or
a response that fails JSON sanitization, `Except.ok` for a response that
parsed to the documented shape.  Fresh id generation
(`crypto.randomUUID`) is modelled by a parameter `mkId : Nat → String`
giving the id produced by the k-th generation call.  JavaScript `Map`
and plain-object key iteration is modelled with association lists in
insertion order (screen ids and labels in this code base are not
integer-like strings, so JS object key ordering coincides with
insertion order).
-/

namespace Rewind

/-! ## Heuristic workflow segmenter (`workflowSegmenter.ts`, lines 16-143)

Events are taken after the projection at the top of `segmentWorkflows`:
only `screenId`, `actionSummary` and `screenshotPath` are kept. -/

structure SegEvent where
  screenId : String
  actionSummary : String
  screenshotPath : String
deriving DecidableEq, Repr

structure WorkflowStep where
  screenId : String
  screenLabel : String
  action : String
  screenshotPath : String
deriving DecidableEq, Repr

structure RawWorkflow where
  steps : List WorkflowStep
deriving DecidableEq, Repr

/-- One update `freq[k] = (freq[k] || 0) + 1` on the frequency record,
kept as an association list in key-insertion order. -/
def bump : List (String × Nat) → String → List (String × Nat)
  | [], k => [(k, 1)]
  | (q, c) :: rest, k =>
    if q = k then (q, c + 1) :: rest else (q, c) :: bump rest k

/-- The frequency record built by `events.forEach`, in insertion order
(the order of `Object.entries(freq)` for non-integer-like keys). -/
def screenFreq (ids : List String) : List (String × Nat) :=
  ids.foldl bump []

/-- The comparator `(a, b) => b[1] - a[1]`: descending by count. -/
def byCountDesc (a b : String × Nat) : Prop := b.2 ≤ a.2

instance : DecidableRel byCountDesc :=
  fun a b => inferInstanceAs (Decidable (b.2 ≤ a.2))

instance : IsTotal (String × Nat) byCountDesc :=
  ⟨fun a b => Nat.le_total b.2 a.2⟩

instance : IsTrans (String × Nat) byCountDesc :=
  ⟨fun _ _ _ hab hbc => Nat.le_trans hbc hab⟩

/-- `Object.entries(freq).sort((a, b) => b[1] - a[1])`.  JS `sort` is
stable; `List.insertionSort` with the descending relation produces the
same (unique) stable descending order. -/
def sortedScreens (ids : List String) : List (String × Nat) :=
  List.insertionSort byCountDesc (screenFreq ids)

/-- Base-screen selection, lines 64-75: the top entry is always base;
the second entry is base iff `secondCount >= topCount / 2 && secondCount > 1`
(JS real division, i.e. `2 * secondCount ≥ topCount` over naturals). -/
def baseScreenIds (ids : List String) : List String :=
  match sortedScreens ids with
  | [] => []
  | (top, topCount) :: rest =>
    match rest with
    | [] => [top]
    | (second, secondCount) :: _ =>
      if 2 * secondCount ≥ topCount ∧ 1 < secondCount then [top, second]
      else [top]

/-- `screenLookup.get(screenId) || screenId` (an empty label is falsy). -/
def getScreenLabel (lookup : List (String × String)) (id : String) : String :=
  match List.lookup id lookup with
  | some l => if l = "" then id else l
  | none => id

/-- Mutable loop state of `segmentWorkflows`: emitted workflows, the
accumulated step list, the ACTIVE flag, and the loop-detection seen-set
(queried only through membership, kept as a list). -/
structure SegState where
  workflows : List RawWorkflow
  steps : List WorkflowStep
  active : Bool
  seen : List String
deriving DecidableEq, Repr

def mkStep (lookup : List (String × String)) (e : SegEvent) : WorkflowStep :=
  ⟨e.screenId, getScreenLabel lookup e.screenId, e.actionSummary, e.screenshotPath⟩

/-- Body of the `for (let i = 1; ...)` loop, lines 85-135, for one pair
`(prev, cur) = (events[i-1], events[i])`. -/
def segStep (bases : List String) (lookup : List (String × String))
    (s : SegState) (prev cur : SegEvent) : SegState :=
  let prevIsBase := prev.screenId ∈ bases
  let curIsBase := cur.screenId ∈ bases
  let s1 := if prevIsBase ∧ ¬ curIsBase then
      { s with steps := [], seen := [], active := true }
    else s
  if s1.active then
    let loopDetected := cur.screenId ∈ s1.seen
    let returnedToBase := ¬ prevIsBase ∧ curIsBase
    if returnedToBase ∨ loopDetected then
      let steps2 := if loopDetected ∧ ¬ curIsBase
        then s1.steps ++ [mkStep lookup cur] else s1.steps
      let wfs := if steps2 = [] then s1.workflows
        else s1.workflows ++ [RawWorkflow.mk steps2]
      ⟨wfs, [], false, []⟩
    else
      { s1 with steps := s1.steps ++ [mkStep lookup cur],
                seen := s1.seen ++ [cur.screenId] }
  else s1

def initSegState : SegState := ⟨[], [], false, []⟩

/-- The loop itself: `prev` carries `events[i-1]`. -/
def segRunAux (bases : List String) (lookup : List (String × String)) :
    SegState → SegEvent → List SegEvent → SegState
  | s, _, [] => s
  | s, prev, cur :: rest =>
    segRunAux bases lookup (segStep bases lookup s prev cur) cur rest

def segRun (bases : List String) (lookup : List (String × String)) :
    List SegEvent → SegState
  | [] => initSegState
  | e :: rest => segRunAux bases lookup initSegState e rest

/-- `segmentWorkflows` (in-memory variant): length guard, base-screen
selection, main loop, end-of-stream flush. -/
def segmentWorkflows (events : List SegEvent)
    (lookup : List (String × String)) : List RawWorkflow :=
  if events.length ≤ 1 then []
  else
    let bases := baseScreenIds (events.map SegEvent.screenId)
    let final := segRun bases lookup events
    if final.active = true ∧ final.steps ≠ [] then
      final.workflows ++ [RawWorkflow.mk final.steps]
    else final.workflows

/-! Literal scenarios from the spec and the segmenter test suite. -/

/-- Loop scenario: screens `Dashboard ×3, Step One, Step Two, Step Three,
Step Two, Dashboard ×2`, each event with its own action and screenshot. -/
def loopEvents : List SegEvent :=
  [⟨"Dashboard", "a0", "p0"⟩, ⟨"Dashboard", "a1", "p1"⟩,
   ⟨"Dashboard", "a2", "p2"⟩, ⟨"Step One", "a3", "p3"⟩,
   ⟨"Step Two", "a4", "p4"⟩, ⟨"Step Three", "a5", "p5"⟩,
   ⟨"Step Two", "a6", "p6"⟩, ⟨"Dashboard", "a7", "p7"⟩,
   ⟨"Dashboard", "a8", "p8"⟩]

/-- The single expected workflow of the loop scenario: the repeated
`Step Two` is included as the final step. -/
def loopExpected : RawWorkflow :=
  ⟨[⟨"Step One", "Step One", "a3", "p3"⟩, ⟨"Step Two", "Step Two", "a4", "p4"⟩,
    ⟨"Step Three", "Step Three", "a5", "p5"⟩,
    ⟨"Step Two", "Step Two", "a6", "p6"⟩]⟩

/-- Incomplete-session scenario: `Dashboard, Settings, Advanced Settings`
with no return to base. -/
def flushEvents : List SegEvent :=
  [⟨"Dashboard", "a0", "p0"⟩, ⟨"Settings", "a1", "p1"⟩,
   ⟨"Advanced Settings", "a2", "p2"⟩]

/-- The single expected workflow of the incomplete-session scenario,
emitted by the end-of-stream flush. -/
def flushExpected : RawWorkflow :=
  ⟨[⟨"Settings", "Settings", "a1", "p1"⟩,
    ⟨"Advanced Settings", "Advanced Settings", "a2", "p2"⟩]⟩

/-- Concrete event list used to instantiate the base-screen-selection
property: ids `A, B, B, A, A` give counts `A ↦ 3, B ↦ 2`. -/
def freqEvents : List SegEvent :=
  [⟨"A", "a0", "p0"⟩, ⟨"B", "a1", "p1"⟩, ⟨"B", "a2", "p2"⟩,
   ⟨"A", "a3", "p3"⟩, ⟨"A", "a4", "p4"⟩]

/-- Concrete open segmenter state used to instantiate the loop-closure
property: one accumulated step whose screen `Step One` is in the
seen-set. -/
def loopWitState : SegState :=
  ⟨[], [⟨"Step One", "Step One", "a3", "p3"⟩], true, ["Step One"]⟩

def loopWitPrev : SegEvent := ⟨"Step Two", "a4", "p4"⟩

def loopWitCur : SegEvent := ⟨"Step One", "a5", "p5"⟩

/-- Invariant of the segmenter loop state: every emitted workflow is
non-empty and free of base-screen steps, the open step list is free of
base-screen steps, and an inactive state has an empty step list. -/
def goodState (bases : List String) (s : SegState) : Prop :=
  (∀ w ∈ s.workflows, w.steps ≠ [] ∧ ∀ st ∈ w.steps, st.screenId ∉ bases) ∧
  (∀ st ∈ s.steps, st.screenId ∉ bases) ∧
  (s.active = false → s.steps = [])

/-! ## JSON values and `sanitizeJSON` (`llm.ts`, lines 26-42)

`sanitizeJSON` strips markdown code fences with two global regex
replacements (`/```json\n?/gi` then `/```\n?/g`), trims, unwraps one
level of extra quotes, and finally applies `JSON.parse`.  `JSON.parse`
and `JSON.stringify` are platform functions; they are modelled below on
a JSON subset (integer numbers, the common string escapes, no unicode
escapes), which is enough for the collaborator payloads this code
handles.  A parse failure (a thrown `SyntaxError`) is modelled as
`none`. -/

inductive Json where
  | null
  | bool (b : Bool)
  | num (n : Int)
  | str (s : String)
  | arr (xs : List Json)
  | obj (fields : List (String × Json))
deriving Repr

/-- String escaping as done by `JSON.stringify` (restricted to the
escapes for quote, backslash and common control characters). -/
def escChar (c : Char) : String :=
  if c = '"' then "\\\""
  else if c = '\\' then "\\\\"
  else if c = '\n' then "\\n"
  else if c = '\r' then "\\r"
  else if c = '\t' then "\\t"
  else String.singleton c

def escString (s : String) : String :=
  s.toList.foldl (fun acc c => acc ++ escChar c) ""

mutual

/-- `JSON.stringify` on the modelled JSON subset. -/
def serialize : Json → String
  | .null => "null"
  | .bool true => "true"
  | .bool false => "false"
  | .num n => toString n
  | .str s => "\"" ++ escString s ++ "\""
  | .arr xs => "[" ++ serializeItems xs ++ "]"
  | .obj fs => "\x7b" ++ serializeFields fs ++ "\x7d"

def serializeItems : List Json → String
  | [] => ""
  | [x] => serialize x
  | x :: y :: xs => serialize x ++ "," ++ serializeItems (y :: xs)

def serializeFields : List (String × Json) → String
  | [] => ""
  | [(k, v)] => "\"" ++ escString k ++ "\":" ++ serialize v
  | (k, v) :: f :: fs =>
    "\"" ++ escString k ++ "\":" ++ serialize v ++ "," ++
      serializeFields (f :: fs)

end

def isWsChar (c : Char) : Bool :=
  c = ' ' || c = '\t' || c = '\n' || c = '\r'

def skipWs : List Char → List Char
  | [] => []
  | c :: cs => if isWsChar c then skipWs cs else c :: cs

def decodeEsc (e : Char) : Option Char :=
  if e = '"' then some '"'
  else if e = '\\' then some '\\'
  else if e = '/' then some '/'
  else if e = 'n' then some '\n'
  else if e = 'r' then some '\r'
  else if e = 't' then some '\t'
  else none

/-- Body of a JSON string literal, after the opening quote. -/
def parseStringBody : List Char → Option (String × List Char)
  | [] => none
  | '"' :: rest => some ("", rest)
  | '\\' :: e :: rest =>
    (decodeEsc e).bind fun c =>
      (parseStringBody rest).map fun p => (String.singleton c ++ p.1, p.2)
  | c :: rest =>
    (parseStringBody rest).map fun p => (String.singleton c ++ p.1, p.2)

def digitsVal (ds : List Char) : Nat :=
  ds.foldl (fun acc d => acc * 10 + (d.toNat - '0'.toNat)) 0

mutual

/-- Recursive-descent `JSON.parse` on the modelled subset, with fuel. -/
def parseVal : Nat → List Char → Option (Json × List Char)
  | 0, _ => none
  | fuel + 1, cs =>
    match skipWs cs with
    | 'n' :: 'u' :: 'l' :: 'l' :: rest => some (.null, rest)
    | 't' :: 'r' :: 'u' :: 'e' :: rest => some (.bool true, rest)
    | 'f' :: 'a' :: 'l' :: 's' :: 'e' :: rest => some (.bool false, rest)
    | '"' :: rest => (parseStringBody rest).map fun p => (.str p.1, p.2)
    | '[' :: rest =>
      match skipWs rest with
      | ']' :: rest2 => some (.arr [], rest2)
      | rest2 => (parseItems fuel rest2).map fun p => (.arr p.1, p.2)
    | '\x7b' :: rest =>
      match skipWs rest with
      | '\x7d' :: rest2 => some (.obj [], rest2)
      | rest2 => (parseFields fuel rest2).map fun p => (.obj p.1, p.2)
    | '-' :: rest =>
      match List.span Char.isDigit rest with
      | ([], _) => none
      | (ds, rest2) => some (.num (-(Int.ofNat (digitsVal ds))), rest2)
    | c :: rest =>
      if c.isDigit then
        match List.span Char.isDigit (c :: rest) with
        | (ds, rest2) => some (.num (Int.ofNat (digitsVal ds)), rest2)
      else none
    | [] => none

def parseItems : Nat → List Char → Option (List Json × List Char)
  | 0, _ => none
  | fuel + 1, cs =>
    (parseVal fuel cs).bind fun v =>
      match skipWs v.2 with
      | ',' :: rest2 =>
        (parseItems fuel rest2).map fun p => (v.1 :: p.1, p.2)
      | ']' :: rest2 => some ([v.1], rest2)
      | _ => none

def parseFields : Nat → List Char → Option (List (String × Json) × List Char)
  | 0, _ => none
  | fuel + 1, cs =>
    match skipWs cs with
    | '"' :: rest =>
      (parseStringBody rest).bind fun k =>
        match skipWs k.2 with
        | ':' :: rest2 =>
          (parseVal fuel rest2).bind fun v =>
            match skipWs v.2 with
            | ',' :: rest3 =>
              (parseFields fuel rest3).map fun p => ((k.1, v.1) :: p.1, p.2)
            | '\x7d' :: rest3 => some ([(k.1, v.1)], rest3)
            | _ => none
        | _ => none
    | _ => none

end

/-- `JSON.parse`: parse one value, allow surrounding whitespace, demand
the input is consumed. -/
def parseJson (s : String) : Option Json :=
  match parseVal (s.length + 1) s.toList with
  | some (v, rest) => if skipWs rest = [] then some v else none
  | none => none

/-- The optional `\n?` at the end of both fence regexes. -/
def dropNl : List Char → List Char
  | '\n' :: rest => rest
  | rest => rest

/-- Case-insensitive match of the four letters of `json` (the `i` regex
flag). -/
def isJsonTagChars (c1 c2 c3 c4 : Char) : Bool :=
  (c1 = 'j' || c1 = 'J') && (c2 = 's' || c2 = 'S') &&
  (c3 = 'o' || c3 = 'O') && (c4 = 'n' || c4 = 'N')

/-- Does `/```json\n?/i` match at the start of the input?  If so, return
what follows the match. -/
def tickJsonSplit (cs : List Char) : Option (List Char) :=
  match cs with
  | '`' :: '`' :: '`' :: c1 :: c2 :: c3 :: c4 :: rest =>
    if isJsonTagChars c1 c2 c3 c4 then some (dropNl rest) else none
  | _ => none

/-- Left-to-right global replacement of `/```json\n?/gi` by the empty
string, with fuel (every step consumes at least one character, so fuel
equal to the length suffices). -/
def stripTicksJsonF : Nat → List Char → List Char
  | 0, cs => cs
  | fuel + 1, cs =>
    match tickJsonSplit cs with
    | some rest => stripTicksJsonF fuel rest
    | none =>
      match cs with
      | [] => []
      | c :: cs2 => c :: stripTicksJsonF fuel cs2

def stripTicksJson (cs : List Char) : List Char :=
  stripTicksJsonF cs.length cs

/-- Does `/```\n?/` match at the start of the input? -/
def tickSplit (cs : List Char) : Option (List Char) :=
  match cs with
  | '`' :: '`' :: '`' :: rest => some (dropNl rest)
  | _ => none

/-- Left-to-right global replacement of `/```\n?/g` by the empty
string. -/
def stripTicksF : Nat → List Char → List Char
  | 0, cs => cs
  | fuel + 1, cs =>
    match tickSplit cs with
    | some rest => stripTicksF fuel rest
    | none =>
      match cs with
      | [] => []
      | c :: cs2 => c :: stripTicksF fuel cs2

def stripTicks (cs : List Char) : List Char :=
  stripTicksF cs.length cs

/-- `String.prototype.trim` (on the modelled whitespace set). -/
def trimChars (cs : List Char) : List Char :=
  ((cs.dropWhile fun c => isWsChar c).reverse.dropWhile
    fun c => isWsChar c).reverse

/-- `cleaned.startsWith('"') && cleaned.endsWith('"')`. -/
def startsEndsQuote (cs : List Char) : Bool :=
  match cs.head?, cs.getLast? with
  | some '"', some '"' => true
  | _, _ => false

/-- The three-backtick fence marker, as a character list. -/
def ticks3 : List Char := ['`', '`', '`']

/-- No suffix of the input begins with a `/```json\n?/i` match. -/
def NoSplitJ (cs : List Char) : Prop :=
  ∀ l₁ l₂, cs = l₁ ++ l₂ → tickJsonSplit l₂ = none

/-- No suffix of the input begins with a `/```\n?/` match. -/
def NoSplitT (cs : List Char) : Prop :=
  ∀ l₁ l₂, cs = l₁ ++ l₂ → tickSplit l₂ = none

/-- `sanitizeJSON` from `llm.ts`: strip both fence patterns, trim,
unwrap one level of extra quotes (keeping the input when that inner
parse fails or yields a non-string), then parse. -/
def sanitizeJSON (s : String) : Option Json :=
  let cleaned := trimChars (stripTicks (stripTicksJson s.toList))
  let cleaned2 :=
    if startsEndsQuote cleaned then
      match parseJson (String.mk cleaned) with
      | some (Json.str t) => t.toList
      | _ => cleaned
    else cleaned
  parseJson (String.mk cleaned2)

/-! ## Captured events and the screen canonicalizer
(`types.ts`, `pipeline/screenCanonicalizer.ts`) -/

/-- A raw captured event (`types.ts`); the fields read by the
finalization pipeline.  `screenId` starts unset and is assigned during
canonicalization. -/
structure CapturedEvent where
  timestamp : Int
  eventType : String
  url : String
  screenshotPath : String
  targetTag : String
  targetText : Option String := none
  inputValue : Option String := none
  inputName : Option String := none
  inputLabel : Option String := none
  actionSummary : Option String := none
  screenId : Option String := none
deriving DecidableEq, Repr

structure CanonicalScreen where
  id : String
  label : String
  description : String
  urlPatterns : List String
  exampleScreenshotPath : String
deriving DecidableEq, Repr

/-- One cluster of the collaborator's canonicalization response
(`screenTypes` entries; `groupIds` are JSON numbers, so they may be
negative or out of range). -/
structure ScreenTypeResp where
  groupIds : List Int
  canonicalLabel : String
  description : String
deriving DecidableEq, Repr

/-- Result of canonicalization.  The source mutates each event's
`screenId` in place; the model returns the updated event list in
`events`. -/
structure CanonicalizeResult where
  screens : List CanonicalScreen
  eventScreenMappings : List (Nat × String)
  events : List CapturedEvent
deriving DecidableEq, Repr

/-- `url.split("/")` restricted to the single-character separator used
here, on character lists (kept kernel-reducible). -/
def splitSlash : List Char → List (List Char)
  | [] => [[]]
  | '/' :: rest => [] :: splitSlash rest
  | c :: rest =>
    match splitSlash rest with
    | [] => [[c]]
    | p :: ps => (c :: p) :: ps

def splitDash : List Char → List (List Char)
  | [] => [[]]
  | '-' :: rest => [] :: splitDash rest
  | c :: rest =>
    match splitDash rest with
    | [] => [[c]]
    | p :: ps => (c :: p) :: ps

def joinSlash : List (List Char) → List Char
  | [] => []
  | [p] => p
  | p :: q :: ps => p ++ '/' :: joinSlash (q :: ps)

def isHexChar (c : Char) : Bool :=
  c.isDigit || ('a' ≤ c && c ≤ 'f') || ('A' ≤ c && c ≤ 'F')

/-- The UUID regex `^[0-9a-f]{8}-...-[0-9a-f]{12}$/i`: five dash-joined
hex runs of lengths 8, 4, 4, 4, 12. -/
def isUuidShape (part : List Char) : Bool :=
  ((splitDash part).map List.length = [8, 4, 4, 4, 12] : Bool) &&
    part.all fun c => isHexChar c || c = '-'

/-- One path segment of `extractUrlPattern`: replaced by `*` when it is
an 8+ character alphanumeric token, a UUID, or purely numeric. -/
def starifyPart (part : List Char) : List Char :=
  if 8 ≤ part.length && part.all Char.isAlphanum then ['*']
  else if isUuidShape part then ['*']
  else if 1 ≤ part.length && part.all Char.isDigit then ['*']
  else part

/-- The remainder after the first `"://"`, if any (a URL without a
scheme separator makes `new URL` throw, modelled as `none`). -/
def afterScheme : List Char → Option (List Char)
  | ':' :: '/' :: '/' :: rest => some rest
  | _ :: rest => afterScheme rest
  | [] => none

/-- `new URL(url).pathname`, modelled for scheme-and-host URLs: the part
of the input after the host, cut at the query or fragment, defaulting to
`/`. -/
def pathnameOf (url : String) : Option (List Char) :=
  match afterScheme url.toList with
  | none => none
  | some rest =>
    let path := (rest.dropWhile fun c => c ≠ '/').takeWhile
      fun c => c ≠ '?' && c ≠ '#'
    some (if path = [] then ['/'] else path)

/-- `extractUrlPattern` (`screenCanonicalizer.ts`, lines 212-232). -/
def extractUrlPattern (url : String) : String :=
  match pathnameOf url with
  | none => url
  | some pathname =>
    let pathParts := (splitSlash pathname).filter fun p => p ≠ []
    let patternParts := pathParts.map starifyPart
    String.mk ('/' :: joinSlash patternParts)

/-- One step of `groups.get(pattern) || []; push; set` on the insertion
ordered `Map`. -/
def addToGroup : List (String × List CapturedEvent) → String →
    CapturedEvent → List (String × List CapturedEvent)
  | [], p, e => [(p, [e])]
  | (q, es) :: rest, p, e =>
    if q = p then (q, es ++ [e]) :: rest
    else (q, es) :: addToGroup rest p e

/-- `groupByUrlPattern` (lines 237-248). -/
def groupByUrlPattern (events : List CapturedEvent) :
    List (String × List CapturedEvent) :=
  events.foldl (fun gs e => addToGroup gs (extractUrlPattern e.url) e) []

/-- `[...new Set(xs)]`: deduplication keeping first occurrences. -/
def dedupFirst (xs : List String) : List String :=
  xs.foldl (fun acc x => if x ∈ acc then acc else acc ++ [x]) []

/-- `Map.set` on an association list: overwrite in place or append. -/
def setAssoc : List (Int × String) → Int → String → List (Int × String)
  | [], k, v => [(k, v)]
  | (q, w) :: rest, k, v =>
    if q = k then (q, v) :: rest else (q, w) :: setAssoc rest k v

/-- `groupsForGPT[groupId]` for a JSON-number index. -/
def getGroup (gs : List (String × List CapturedEvent)) (i : Int) :
    Option (String × List CapturedEvent) :=
  if i < 0 then none else gs.get? i.toNat

/-- `!exampleScreenshotPath` fold over the clustered groups: take the
first group's first screenshot while the current value is falsy. -/
def exampleOf (valid : List (String × List CapturedEvent)) : String :=
  valid.foldl
    (fun ex g =>
      if ex = "" then
        match g.2 with
        | [] => ex
        | e :: _ => e.screenshotPath
      else ex) ""

/-- Build the `CanonicalScreen` of the k-th `screenTypes` entry
(lines 320-347): fresh id, the clustered groups' patterns deduplicated,
first screenshot as example. -/
def screenOfType (gs : List (String × List CapturedEvent))
    (mkId : Nat → String) (k : Nat) (st : ScreenTypeResp) :
    CanonicalScreen :=
  let valid := st.groupIds.filterMap (getGroup gs)
  ⟨mkId k, st.canonicalLabel, st.description,
    dedupFirst (valid.map Prod.fst), exampleOf valid⟩

def successScreensAux (gs : List (String × List CapturedEvent))
    (mkId : Nat → String) : Nat → List ScreenTypeResp →
    List CanonicalScreen
  | _, [] => []
  | k, st :: resp =>
    screenOfType gs mkId k st :: successScreensAux gs mkId (k + 1) resp

/-- `groupIdToScreenId`: every `groupId` of every cluster is set to that
cluster's fresh screen id, later clusters overwriting earlier ones. -/
def gidMapAux (mkId : Nat → String) : Nat → List ScreenTypeResp →
    List (Int × String) → List (Int × String)
  | _, [], m => m
  | k, st :: resp, m =>
    gidMapAux mkId (k + 1) resp
      (st.groupIds.foldl (fun m g => setAssoc m g (mkId k)) m)

/-- `groupsForGPT.findIndex(g => g.urlPattern === pattern)`. -/
def findGroupIdx (gs : List (String × List CapturedEvent))
    (p : String) : Int :=
  match gs.findIdx? (fun g => g.1 = p) with
  | some i => (i : Int)
  | none => -1

/-- The `events.forEach` mapping loop of the success path
(lines 350-358): an event is mapped only when its group id was set by
some cluster. -/
def successMappings (gs : List (String × List CapturedEvent))
    (gmap : List (Int × String)) (events : List CapturedEvent) :
    List (Nat × String) :=
  events.enum.filterMap fun pr =>
    (List.lookup (findGroupIdx gs (extractUrlPattern pr.2.url)) gmap).map
      fun sid => (pr.1, sid)

def successEvents (gs : List (String × List CapturedEvent))
    (gmap : List (Int × String)) (events : List CapturedEvent) :
    List CapturedEvent :=
  events.map fun e =>
    match List.lookup (findGroupIdx gs (extractUrlPattern e.url)) gmap with
    | some sid => { e with screenId := some sid }
    | none => e

/-- Fallback screens (lines 366-390): one `CanonicalScreen` per URL
pattern group, labelled `Screen N` in group order. -/
def fallbackScreensAux (mkId : Nat → String) : Nat →
    List (String × List CapturedEvent) → List CanonicalScreen
  | _, [] => []
  | i, g :: gs =>
    ⟨mkId i, "Screen " ++ toString (i + 1), "Screen at " ++ g.1, [g.1],
      match g.2 with
      | [] => ""
      | e :: _ => e.screenshotPath⟩ :: fallbackScreensAux mkId (i + 1) gs

/-- Fallback mapping loop: per group in order, every event of that
group's pattern is mapped to the group's fresh id. -/
def fallbackMappingsAux (mkId : Nat → String)
    (events : List CapturedEvent) : Nat →
    List (String × List CapturedEvent) → List (Nat × String)
  | _, [] => []
  | i, g :: gs =>
    (events.enum.filter fun pr => extractUrlPattern pr.2.url = g.1).map
        (fun pr => (pr.1, mkId i)) ++
      fallbackMappingsAux mkId events (i + 1) gs

/-- Fallback `screenId` assignment: each event matches exactly the group
of its own URL pattern, so the nested group/event loops of the source
assign each event the id of its pattern's group. -/
def fallbackEvents (mkId : Nat → String)
    (gs : List (String × List CapturedEvent))
    (events : List CapturedEvent) : List CapturedEvent :=
  events.map fun e =>
    match gs.findIdx? (fun g => g.1 = extractUrlPattern e.url) with
    | some i => { e with screenId := some (mkId i) }
    | none => e

/-- `canonicalizeScreens` (`screenCanonicalizer.ts`, lines 254-394),
with the collaborator call and JSON sanitization abstracted as
`collab` and fresh-id generation as `mkId`. -/
def canonicalizeScreens (mkId : Nat → String)
    (collab : Except Unit (List ScreenTypeResp))
    (events : List CapturedEvent) : CanonicalizeResult :=
  if events.length = 0 then ⟨[], [], events⟩
  else
    let urlGroups := groupByUrlPattern events
    match collab with
    | .ok resp =>
      let gmap := gidMapAux mkId 0 resp []
      ⟨successScreensAux urlGroups mkId 0 resp,
        successMappings urlGroups gmap events,
        successEvents urlGroups gmap events⟩
    | .error _ =>
      ⟨fallbackScreensAux mkId 0 urlGroups,
        fallbackMappingsAux mkId events 0 urlGroups,
        fallbackEvents mkId urlGroups events⟩

/-- The distinct URL patterns of the input events, in first-occurrence
order (spec wording for the fallback: one screen per distinct URL
pattern). -/
def distinctPatterns (events : List CapturedEvent) : List String :=
  dedupFirst (events.map fun e => extractUrlPattern e.url)

/-- Spec shape of the fallback labels: `Screen N` with a singleton
pattern list, per distinct pattern. -/
def fallbackLabelsSpec : Nat → List String → List (String × List String)
  | _, [] => []
  | i, p :: ps =>
    ("Screen " ++ toString (i + 1), [p]) :: fallbackLabelsSpec (i + 1) ps

/-! ## Collaborator-driven instance segmentation
(`pipeline/instanceSegmenter.ts`) -/

/-- A detected workflow instance (`types.ts`). -/
structure DetectedInstance where
  goal : String
  startEventIndex : Int
  endEventIndex : Int
  succeeded : Bool
  events : List CapturedEvent
deriving DecidableEq, Repr

/-- One instance of the collaborator's segmentation response (indices
are JSON numbers). -/
structure SegInstResp where
  goal : String
  startEventIndex : Int
  endEventIndex : Int
  succeeded : Bool
deriving DecidableEq, Repr

structure SegmentationResult where
  instances : List DetectedInstance
deriving DecidableEq, Repr

/-- The sort comparator `(a, b) => a.startEventIndex - b.startEventIndex`. -/
def instLe (a b : DetectedInstance) : Prop :=
  a.startEventIndex ≤ b.startEventIndex

instance : DecidableRel instLe :=
  fun a b => inferInstanceAs (Decidable (a.startEventIndex ≤ b.startEventIndex))

instance : IsTotal DetectedInstance instLe :=
  ⟨fun a b => Int.le_total a.startEventIndex b.startEventIndex⟩

instance : IsTrans DetectedInstance instLe :=
  ⟨fun _ _ _ hab hbc => Int.le_trans hab hbc⟩

/-- Clamp one response instance and materialize its event slice
(lines 171-183): `start = max(0, min(s, n-1))`,
`end = max(start, min(e, n-1))`, `events.slice(start, end + 1)`. -/
def mkDetected (events : List CapturedEvent) (r : SegInstResp) :
    DetectedInstance :=
  let n : Int := events.length
  let start := max 0 (min r.startEventIndex (n - 1))
  let stop := max start (min r.endEventIndex (n - 1))
  ⟨r.goal, start, stop, r.succeeded,
    (events.drop start.toNat).take (stop + 1 - start).toNat⟩

/-- `segmentInstances` (`instanceSegmenter.ts`, lines 77-205), with the
collaborator call abstracted as `collab`.  The `screens` argument is
used by the source only to build the prompt. -/
def segmentInstances (collab : Except Unit (List SegInstResp))
    (events : List CapturedEvent) (screens : List CanonicalScreen) :
    SegmentationResult :=
  match events with
  | [] => ⟨[]⟩
  | [e] => ⟨[⟨"Single action", 0, 0, true, [e]⟩]⟩
  | _ =>
    match collab with
    | .ok resp =>
      ⟨List.insertionSort instLe (resp.map (mkDetected events))⟩
    | .error _ =>
      ⟨[⟨"Browsing session", 0, (events.length : Int) - 1, true, events⟩]⟩

/-! ## Finalization pipeline and persistence
(`pipeline/index.ts`, `db.ts`) -/

structure ParameterDef where
  type : String
  description : String
  required : Bool
  defaultValue : Option String := none
  observedValues : List String := []
deriving DecidableEq, Repr

structure TemplateStep where
  stepNumber : Nat
  screenPattern : String
  actionTemplate : String
  usesInputs : List String
  extracts : List (String × String)
deriving DecidableEq, Repr

structure WorkflowTemplate where
  id : String
  name : String
  description : String
  inputs : List (String × ParameterDef)
  outputs : List (String × ParameterDef)
  steps : List TemplateStep
  createdAt : Int
  updatedAt : Int
deriving DecidableEq, Repr

structure StepSnapshot where
  stepNumber : Nat
  screenshotPath : String
  action : String
  screenLabel : String
deriving DecidableEq, Repr

structure WorkflowInstance where
  id : String
  templateId : String
  sessionId : String
  parameterValues : List (String × String)
  extractedValues : List (String × String)
  stepSnapshots : List StepSnapshot
  createdAt : Int
deriving DecidableEq, Repr

/-- One synthesis result: the template together with its paired
workflow instance (the `instance` field of the source). -/
structure SynthesisResult where
  template : WorkflowTemplate
  inst : WorkflowInstance
deriving DecidableEq, Repr

structure FinalizationResult where
  screens : List CanonicalScreen
  templates : List WorkflowTemplate
  instances : List WorkflowInstance
deriving DecidableEq, Repr

/-- The SQLite store: three entity tables. -/
structure Db where
  screens : List CanonicalScreen
  templates : List WorkflowTemplate
  instances : List WorkflowInstance
deriving DecidableEq, Repr

/-- `INSERT OR REPLACE` keyed by id: replace in place or append. -/
def replaceOrAppend {α : Type} (idOf : α → String) :
    List α → α → List α
  | [], x => [x]
  | y :: ys, x =>
    if idOf y = idOf x then x :: ys else y :: replaceOrAppend idOf ys x

def insScreenOp (d : Db) (s : CanonicalScreen) : Db :=
  { d with screens := replaceOrAppend CanonicalScreen.id d.screens s }

def insTemplateOp (d : Db) (t : WorkflowTemplate) : Db :=
  { d with templates := replaceOrAppend WorkflowTemplate.id d.templates t }

/-- Workflow instances use a plain `INSERT`: append only. -/
def insInstanceOp (d : Db) (i : WorkflowInstance) : Db :=
  { d with instances := d.instances ++ [i] }

/-- Run a loop of single-row inserts.  `ok n` tells whether the n-th
statement of the run succeeds; the first failing statement throws,
leaving the rows already written in place (there is no enclosing
transaction in `db.ts`). -/
def persistList {α : Type} (apply : Db → α → Db) (ok : Nat → Bool) :
    Db → Nat → List α → Db × Nat × Bool
  | db, n, [] => (db, n, true)
  | db, n, x :: xs =>
    if ok n then persistList apply ok (apply db x) (n + 1) xs
    else (db, n, false)

/-- `runFinalizationPipeline` (`pipeline/index.ts`, lines 19-63).
Canonicalization and segmentation are the modelled stages above;
template synthesis (`synthesizeTemplates`, one collaborator call per
instance with its own fallback, always yielding one result per
instance) is abstracted as `synth`.  The returned `Option` is `none`
when a persistence statement threw (the pipeline has no catch, so the
error propagates to the caller with the rows written so far kept). -/
def runFinalizationPipeline (mkId : Nat → String)
    (collabCanon : Except Unit (List ScreenTypeResp))
    (collabSeg : Except Unit (List SegInstResp))
    (synth : DetectedInstance → SynthesisResult)
    (ok : Nat → Bool) (db : Db) (events : List CapturedEvent) :
    Db × Option FinalizationResult :=
  if events.length = 0 then (db, some ⟨[], [], []⟩)
  else
    let cres := canonicalizeScreens mkId collabCanon events
    let sres := segmentInstances collabSeg cres.events cres.screens
    match sres.instances with
    | [] =>
      let p := persistList insScreenOp ok db 0 cres.screens
      if p.2.2 then (p.1, some ⟨cres.screens, [], []⟩) else (p.1, none)
    | _ =>
      let results := sres.instances.map synth
      let templates := results.map SynthesisResult.template
      let instances := results.map SynthesisResult.inst
      let p1 := persistList insScreenOp ok db 0 cres.screens
      if p1.2.2 then
        let p2 := persistList insTemplateOp ok p1.1 p1.2.1 templates
        if p2.2.2 then
          let p3 := persistList insInstanceOp ok p2.1 p2.2.1 instances
          if p3.2.2 then (p3.1, some ⟨cres.screens, templates, instances⟩)
          else (p3.1, none)
        else (p2.1, none)
      else (p1.1, none)

/-- The `(template, instance)` pairs a given pipeline run hands to the
persistence step (empty when there are no events or no detected
instances). -/
def pipelinePairs (mkId : Nat → String)
    (collabCanon : Except Unit (List ScreenTypeResp))
    (collabSeg : Except Unit (List SegInstResp))
    (synth : DetectedInstance → SynthesisResult)
    (events : List CapturedEvent) : List SynthesisResult :=
  if events.length = 0 then []
  else
    let cres := canonicalizeScreens mkId collabCanon events
    (segmentInstances collabSeg cres.events cres.screens).instances.map synth

/-! Concrete data for the persistence scenarios. -/

def pipeEvent1 : CapturedEvent :=
  { timestamp := 0, eventType := "click", url := "https://x.com/a",
    screenshotPath := "s1.png", targetTag := "a" }

def pipeEvent2 : CapturedEvent :=
  { timestamp := 1, eventType := "click", url := "https://x.com/a",
    screenshotPath := "s2.png", targetTag := "b" }

def pipeTemplate : WorkflowTemplate :=
  ⟨"tmpl_1", "Browse", "One workflow", [], [], [], 0, 0⟩

def pipeInstance : WorkflowInstance :=
  ⟨"inst_1", "tmpl_1", "sess", [], [], [], 0⟩

def pipeSynth : DetectedInstance → SynthesisResult :=
  fun _ => ⟨pipeTemplate, pipeInstance⟩

def pipeMkId : Nat → String := fun k => "scr_" ++ toString k

end Rewind

namespace Rewind

/-! ## Theorems about the heuristic segmenter -/

theorem bump_keys (f : List (String × Nat)) (k : String) :
    (bump f k).map Prod.fst =
      if k ∈ f.map Prod.fst then f.map Prod.fst else f.map Prod.fst ++ [k] := by
  induction f with
  | nil => simp [bump]
  | cons p rest ih =>
    obtain ⟨q, c⟩ := p
    by_cases h : q = k
    · simp [bump, h]
    · simp only [bump, if_neg h, List.map_cons, List.mem_cons]
      rw [ih]
      by_cases h2 : k ∈ rest.map Prod.fst
      · simp [h2, Ne.symm h]
      · simp [h2, Ne.symm h]

theorem foldl_bump_nodup (ids : List String) (acc : List (String × Nat))
    (h : (acc.map Prod.fst).Nodup) :
    ((ids.foldl bump acc).map Prod.fst).Nodup := by
  induction ids generalizing acc with
  | nil => simpa using h
  | cons i rest ih =>
    refine ih (bump acc i) ?_
    rw [bump_keys]
    by_cases h2 : i ∈ acc.map Prod.fst
    · simpa [h2] using h
    · simp [h2, List.nodup_append, h]

theorem screenFreq_nodup_keys (ids : List String) :
    ((screenFreq ids).map Prod.fst).Nodup :=
  foldl_bump_nodup ids [] (by simp)

theorem sortedScreens_perm (ids : List String) :
    List.Perm (sortedScreens ids) (screenFreq ids) :=
  List.perm_insertionSort byCountDesc (screenFreq ids)

theorem sortedScreens_sorted (ids : List String) :
    List.Sorted byCountDesc (sortedScreens ids) :=
  List.sorted_insertionSort byCountDesc (screenFreq ids)

theorem sortedScreens_nodup_keys (ids : List String) :
    ((sortedScreens ids).map Prod.fst).Nodup :=
  (((sortedScreens_perm ids).map Prod.fst).nodup_iff).mpr
    (screenFreq_nodup_keys ids)

/-- C3: base-screen selection is a pure function of the screen-id
frequency counts; the most frequent screen id (the head of the stably
sorted frequency list) is always a base screen and its count bounds
every count; and the second-most-frequent screen id is a base screen if
and only if its count is at least half the top count (`2 * count2 ≥
count1`) and strictly greater than 1. -/
theorem base_screen_selection_c3 (events : List SegEvent) :
    (∀ events' : List SegEvent,
      screenFreq (events.map SegEvent.screenId) =
        screenFreq (events'.map SegEvent.screenId) →
      baseScreenIds (events.map SegEvent.screenId) =
        baseScreenIds (events'.map SegEvent.screenId)) ∧
    (∀ t, (sortedScreens (events.map SegEvent.screenId)).head? = some t →
      t.1 ∈ baseScreenIds (events.map SegEvent.screenId) ∧
      ∀ p ∈ screenFreq (events.map SegEvent.screenId), p.2 ≤ t.2) ∧
    (∀ t s rest,
      sortedScreens (events.map SegEvent.screenId) = t :: s :: rest →
      (s.1 ∈ baseScreenIds (events.map SegEvent.screenId) ↔
        2 * s.2 ≥ t.2 ∧ 1 < s.2)) := by
  set ids := events.map SegEvent.screenId with hids
  refine ⟨?_, ?_, ?_⟩
  · intro events' h
    simp only [baseScreenIds, sortedScreens, ← hids, h]
  · intro t ht
    obtain ⟨rest, hs⟩ : ∃ rest, sortedScreens ids = t :: rest := by
      cases h : sortedScreens ids with
      | nil => rw [h] at ht; simp at ht
      | cons a l =>
        rw [h] at ht
        simp only [List.head?_cons, Option.some.injEq] at ht
        exact ⟨l, by rw [ht]⟩
    constructor
    · rw [baseScreenIds, hs]
      obtain ⟨t1, t2⟩ := t
      cases rest with
      | nil => simp
      | cons s rest' =>
        obtain ⟨s1, s2⟩ := s
        simp only
        split_ifs <;> simp
    · intro p hp
      have hmem : p ∈ sortedScreens ids :=
        ((sortedScreens_perm ids).mem_iff).mpr hp
      rw [hs] at hmem
      rcases List.mem_cons.mp hmem with h | h
      · subst h; exact Nat.le_refl _
      · have hsorted := sortedScreens_sorted ids
        rw [hs] at hsorted
        exact (List.rel_of_sorted_cons hsorted) p h
  · intro t s rest hs
    have hnd := sortedScreens_nodup_keys ids
    rw [hs] at hnd
    simp only [List.map_cons, List.nodup_cons, List.mem_cons] at hnd
    have hts : s.1 ≠ t.1 := fun h => hnd.1 (Or.inl h.symm)
    rw [baseScreenIds, hs]
    obtain ⟨t1, t2⟩ := t
    obtain ⟨s1, s2⟩ := s
    simp only at hts ⊢
    constructor
    · intro hmem
      by_contra hc
      rw [if_neg hc] at hmem
      simp only [List.mem_singleton] at hmem
      exact hts hmem
    · intro hcond
      rw [if_pos hcond]
      simp

/-- C4: while an instance is open, an event whose screen id is already
in the seen-set closes the instance, appending the repeated step unless
its screen is a base screen; and the literal loop scenario yields
exactly one instance with steps `Step One, Step Two, Step Three, Step
Two`. -/
theorem loop_closure_c4 :
    (∀ (bases : List String) (lookup : List (String × String))
      (s : SegState) (prev cur : SegEvent),
      s.active = true → cur.screenId ∈ s.seen → prev.screenId ∉ bases →
      (segStep bases lookup s prev cur).active = false ∧
      (segStep bases lookup s prev cur).workflows =
        (if cur.screenId ∈ bases then
          (if s.steps = [] then s.workflows
           else s.workflows ++ [RawWorkflow.mk s.steps])
         else
          s.workflows ++ [RawWorkflow.mk (s.steps ++ [mkStep lookup cur])])) ∧
    segmentWorkflows loopEvents [] = [loopExpected] := by
  constructor
  · intro bases lookup s prev cur hact hseen hprev
    by_cases hcur : cur.screenId ∈ bases
    · simp [segStep, hact, hseen, hprev, hcur]
    · simp [segStep, hact, hseen, hprev, hcur]
  · decide

/-- C6: when the stream ends with an instance still open and non-empty,
that instance is appended to the output (end-of-stream flush); and the
literal incomplete-session scenario yields exactly one instance with
steps `Settings, Advanced Settings`. -/
theorem end_of_stream_flush_c6 :
    (∀ (events : List SegEvent) (lookup : List (String × String)),
      1 < events.length →
      (segRun (baseScreenIds (events.map SegEvent.screenId)) lookup
        events).active = true →
      (segRun (baseScreenIds (events.map SegEvent.screenId)) lookup
        events).steps ≠ [] →
      segmentWorkflows events lookup =
        (segRun (baseScreenIds (events.map SegEvent.screenId)) lookup
          events).workflows ++
          [RawWorkflow.mk
            (segRun (baseScreenIds (events.map SegEvent.screenId)) lookup
              events).steps]) ∧
    segmentWorkflows flushEvents [] = [flushExpected] := by
  constructor
  · intro events lookup hlen hact hsteps
    rw [segmentWorkflows, if_neg (by omega)]
    simp only []
    split_ifs with h
    · rfl
    · exact absurd ⟨hact, hsteps⟩ h
  · decide

theorem segStep_good (bases : List String) (lookup : List (String × String))
    (s : SegState) (prev cur : SegEvent) (h : goodState bases s)
    (hp : s.active = true → prev.screenId ∉ bases) :
    goodState bases (segStep bases lookup s prev cur) ∧
    ((segStep bases lookup s prev cur).active = true →
      cur.screenId ∉ bases) := by
  obtain ⟨hw, hst, hin⟩ := h
  by_cases hstart : prev.screenId ∈ bases ∧ cur.screenId ∉ bases
  · have hres : segStep bases lookup s prev cur =
        ⟨s.workflows, [mkStep lookup cur], true, [cur.screenId]⟩ := by
      simp [segStep, hstart, hstart.1, hstart.2]
    rw [hres]
    refine ⟨⟨hw, ?_, by simp⟩, fun _ => hstart.2⟩
    intro st hstm
    simp only [List.mem_singleton] at hstm
    subst hstm
    exact hstart.2
  · by_cases hact : s.active = true
    · have hprev : prev.screenId ∉ bases := hp hact
      by_cases hcur : cur.screenId ∈ bases
      · -- return to base: close without appending
        have hres : segStep bases lookup s prev cur =
            ⟨if s.steps = [] then s.workflows
              else s.workflows ++ [RawWorkflow.mk s.steps], [], false, []⟩ := by
          simp [segStep, hstart, hact, hcur, hprev]
        rw [hres]
        refine ⟨⟨?_, by simp, by simp⟩, by simp⟩
        intro w hwm
        split_ifs at hwm with hsteps
        · exact hw w hwm
        · rcases List.mem_append.mp hwm with hmo | hmn
          · exact hw w hmo
          · simp only [List.mem_singleton] at hmn
            subst hmn
            exact ⟨hsteps, hst⟩
      · by_cases hloop : cur.screenId ∈ s.seen
        · -- loop detected on a non-base screen: append then close
          have hres : segStep bases lookup s prev cur =
              ⟨s.workflows ++
                [RawWorkflow.mk (s.steps ++ [mkStep lookup cur])],
               [], false, []⟩ := by
            simp [segStep, hstart, hact, hcur, hprev, hloop]
          rw [hres]
          refine ⟨⟨?_, by simp, by simp⟩, by simp⟩
          intro w hwm
          rcases List.mem_append.mp hwm with hmo | hmn
          · exact hw w hmo
          · simp only [List.mem_singleton] at hmn
            subst hmn
            refine ⟨by simp, ?_⟩
            intro st hstm
            rcases List.mem_append.mp hstm with hso | hsn
            · exact hst st hso
            · simp only [List.mem_singleton] at hsn
              subst hsn
              exact hcur
        · -- plain step: append and stay active
          have hres : segStep bases lookup s prev cur =
              ⟨s.workflows, s.steps ++ [mkStep lookup cur], s.active,
                s.seen ++ [cur.screenId]⟩ := by
            simp [segStep, hstart, hact, hcur, hprev, hloop]
          rw [hres]
          refine ⟨⟨hw, ?_, ?_⟩, fun _ => hcur⟩
          · intro st hstm
            rcases List.mem_append.mp hstm with hso | hsn
            · exact hst st hso
            · simp only [List.mem_singleton] at hsn
              subst hsn
              exact hcur
          · intro hf
            rw [hact] at hf
            exact absurd hf (by simp)
    · have hres : segStep bases lookup s prev cur = s := by
        simp [segStep, hstart, hact]
      rw [hres]
      exact ⟨⟨hw, hst, hin⟩, fun hf => absurd hf hact⟩

theorem segRunAux_good (bases : List String) (lookup : List (String × String))
    (s : SegState) (prev : SegEvent) (rest : List SegEvent)
    (h : goodState bases s)
    (hp : s.active = true → prev.screenId ∉ bases) :
    goodState bases (segRunAux bases lookup s prev rest) := by
  induction rest generalizing s prev with
  | nil => exact h
  | cons cur rest ih =>
    have := segStep_good bases lookup s prev cur h hp
    exact ih (segStep bases lookup s prev cur) cur this.1 this.2

/-- C10: every workflow emitted by the heuristic segmenter is non-empty
and contains no step whose screen id is a base screen; base screens act
only as boundaries, in the loop-closure, return-to-base and
end-of-stream-flush cases alike. -/
theorem no_base_steps_c10 (events : List SegEvent)
    (lookup : List (String × String)) (w : RawWorkflow)
    (hw : w ∈ segmentWorkflows events lookup) :
    w.steps ≠ [] ∧
    ∀ st ∈ w.steps,
      st.screenId ∉ baseScreenIds (events.map SegEvent.screenId) := by
  rw [segmentWorkflows] at hw
  split_ifs at hw with hlen
  · simp at hw
  · simp only [] at hw
    cases events with
    | nil => simp at hlen
    | cons e rest =>
      have hgood : goodState (baseScreenIds ((e :: rest).map SegEvent.screenId))
          (segRun (baseScreenIds ((e :: rest).map SegEvent.screenId)) lookup
            (e :: rest)) := by
        rw [segRun]
        exact segRunAux_good _ lookup initSegState e rest
          ⟨by simp [initSegState], by simp [initSegState],
            fun _ => rfl⟩ (by simp [initSegState])
      obtain ⟨hgw, hgs, _⟩ := hgood
      split_ifs at hw with hflush
      · rcases List.mem_append.mp hw with hmo | hmn
        · exact hgw w hmo
        · simp only [List.mem_singleton] at hmn
          subst hmn
          exact ⟨hflush.2, hgs⟩
      · exact hgw w hw

theorem base_screen_selection_c3_witness :
    "A" ∈ baseScreenIds (freqEvents.map SegEvent.screenId) ∧
    (∀ p ∈ screenFreq (freqEvents.map SegEvent.screenId), p.2 ≤ 3) ∧
    ("B" ∈ baseScreenIds (freqEvents.map SegEvent.screenId) ↔
      2 * 2 ≥ 3 ∧ 1 < 2) := by
  have h := base_screen_selection_c3 freqEvents
  have h2 := h.2.1 ("A", 3) (by decide)
  have h3 := h.2.2 ("A", 3) ("B", 2) [] (by decide)
  exact ⟨h2.1, h2.2, h3⟩

theorem loop_closure_c4_witness :
    (segStep ["Dashboard"] [] loopWitState loopWitPrev loopWitCur).active =
      false ∧
    (segStep ["Dashboard"] [] loopWitState loopWitPrev loopWitCur).workflows =
      (if loopWitCur.screenId ∈ ["Dashboard"] then
        (if loopWitState.steps = [] then loopWitState.workflows
         else loopWitState.workflows ++ [RawWorkflow.mk loopWitState.steps])
       else
        loopWitState.workflows ++
          [RawWorkflow.mk
            (loopWitState.steps ++ [mkStep [] loopWitCur])]) :=
  loop_closure_c4.1 ["Dashboard"] [] loopWitState loopWitPrev loopWitCur
    rfl (by decide) (by decide)

theorem end_of_stream_flush_c6_witness :
    segmentWorkflows flushEvents [] =
      (segRun (baseScreenIds (flushEvents.map SegEvent.screenId)) []
        flushEvents).workflows ++
        [RawWorkflow.mk
          (segRun (baseScreenIds (flushEvents.map SegEvent.screenId)) []
            flushEvents).steps] :=
  end_of_stream_flush_c6.1 flushEvents [] (by decide) (by decide) (by decide)

/-! ## Lemmas about `sanitizeJSON` -/

theorem stripTicksJsonF_nil (fuel : Nat) : stripTicksJsonF fuel [] = [] := by
  cases fuel <;> simp [stripTicksJsonF, tickJsonSplit]

theorem stripTicksF_nil (fuel : Nat) : stripTicksF fuel [] = [] := by
  cases fuel <;> simp [stripTicksF, tickSplit]

theorem tickJsonSplit_some_shape (cs r : List Char)
    (h : tickJsonSplit cs = some r) :
    ∃ c1 c2 c3 c4 rest,
      cs = '`' :: '`' :: '`' :: c1 :: c2 :: c3 :: c4 :: rest ∧
      isJsonTagChars c1 c2 c3 c4 = true ∧ r = dropNl rest := by
  unfold tickJsonSplit at h
  split at h
  · rename_i c1 c2 c3 c4 rest
    split_ifs at h with htag
    · injection h with h
      exact ⟨c1, c2, c3, c4, rest, rfl, htag, h.symm⟩
  · exact absurd h (by simp)

theorem tickSplit_some_shape (cs r : List Char) (h : tickSplit cs = some r) :
    ∃ rest, cs = '`' :: '`' :: '`' :: rest ∧ r = dropNl rest := by
  unfold tickSplit at h
  split at h
  · rename_i rest
    injection h with h
    exact ⟨rest, rfl, h.symm⟩
  · exact absurd h (by simp)

theorem ticks_prefix_of_append (s r : List Char)
    (h : ticks3 <+: s ++ '\n' :: r) : ticks3 <:+: s := by
  rcases le_or_lt 3 s.length with hlen | hlen
  · obtain ⟨t, ht⟩ := h
    have h3 : (ticks3 ++ t).take 3 = (s ++ '\n' :: r).take 3 := by rw [ht]
    rw [List.take_append_of_le_length hlen] at h3
    have h4 : (ticks3 ++ t).take 3 = ticks3 := by
      simp [ticks3]
    rw [h4] at h3
    exact (h3 ▸ List.take_prefix 3 s).isInfix
  · exfalso
    obtain ⟨t, ht⟩ := h
    match s, hlen with
    | [], _ => simp [ticks3] at ht
    | [a], _ => simp [ticks3] at ht
    | [a, b], _ => simp [ticks3] at ht

theorem infix_of_decomp (cs l₁ l₂ : List Char) (hdec : cs = l₁ ++ l₂)
    (hp : ticks3 <+: l₂) : ticks3 <:+: cs := by
  subst hdec
  exact hp.isInfix.trans (List.suffix_append l₁ l₂).isInfix

theorem noSplitJ_of_no_ticks (cs : List Char) (h : ¬ ticks3 <:+: cs) :
    NoSplitJ cs := by
  intro l₁ l₂ hdec
  cases hsp : tickJsonSplit l₂ with
  | none => rfl
  | some r =>
    obtain ⟨c1, c2, c3, c4, rest, hshape, -, -⟩ :=
      tickJsonSplit_some_shape _ _ hsp
    exact absurd
      (infix_of_decomp cs l₁ l₂ hdec ⟨c1 :: c2 :: c3 :: c4 :: rest, hshape.symm⟩)
      h

theorem noSplitT_of_no_ticks (cs : List Char) (h : ¬ ticks3 <:+: cs) :
    NoSplitT cs := by
  intro l₁ l₂ hdec
  cases hsp : tickSplit l₂ with
  | none => rfl
  | some r =>
    obtain ⟨rest, hshape, -⟩ := tickSplit_some_shape _ _ hsp
    exact absurd (infix_of_decomp cs l₁ l₂ hdec ⟨rest, hshape.symm⟩) h

theorem stripTicksJsonF_eq_self (fuel : Nat) (cs : List Char)
    (h : NoSplitJ cs) : stripTicksJsonF fuel cs = cs := by
  induction fuel generalizing cs with
  | zero => rfl
  | succ fuel ih =>
    simp only [stripTicksJsonF, h [] cs rfl]
    cases cs with
    | nil => rfl
    | cons c cs2 =>
      simp only []
      rw [ih cs2 (fun l₁ l₂ hd => h (c :: l₁) l₂ (by rw [hd]; rfl))]

theorem stripTicksF_eq_self (fuel : Nat) (cs : List Char)
    (h : NoSplitT cs) : stripTicksF fuel cs = cs := by
  induction fuel generalizing cs with
  | zero => rfl
  | succ fuel ih =>
    simp only [stripTicksF, h [] cs rfl]
    cases cs with
    | nil => rfl
    | cons c cs2 =>
      simp only []
      rw [ih cs2 (fun l₁ l₂ hd => h (c :: l₁) l₂ (by rw [hd]; rfl))]

theorem noSplitJ_fence_tail (s : List Char) (hs : ¬ ticks3 <:+: s) :
    NoSplitJ (s ++ '\n' :: ticks3) := by
  intro l₁ l₂ hdec
  cases hsp : tickJsonSplit l₂ with
  | none => rfl
  | some r =>
    exfalso
    obtain ⟨c1, c2, c3, c4, rest, hshape, -, -⟩ :=
      tickJsonSplit_some_shape _ _ hsp
    have hlen : 7 ≤ l₂.length := by rw [hshape]; simp
    have hp : ticks3 <+: l₂ := ⟨c1 :: c2 :: c3 :: c4 :: rest, hshape.symm⟩
    rcases List.append_eq_append_iff.mp hdec with ⟨a', ha1, ha2⟩ |
      ⟨c', hc1, hc2⟩
    · have h4 : ('\n' :: ticks3).length = a'.length + l₂.length := by
        rw [ha2]; simp
      simp [ticks3] at h4
      omega
    · rw [hc2] at hp
      have hinf : ticks3 <:+: c' := ticks_prefix_of_append c' ticks3 hp
      have hsuf : c' <:+ s := ⟨l₁, hc1.symm⟩
      exact hs (hinf.trans hsuf.isInfix)

theorem tickJsonSplit_eq_none_aux (cs : List Char)
    (h : ∀ c1 c2 c3 c4 rest,
      cs = '`' :: '`' :: '`' :: c1 :: c2 :: c3 :: c4 :: rest →
      isJsonTagChars c1 c2 c3 c4 = false) :
    tickJsonSplit cs = none := by
  unfold tickJsonSplit
  split
  · rename_i c1 c2 c3 c4 rest
    rw [h c1 c2 c3 c4 rest rfl]
    simp
  · rfl

theorem noSplitJ_cons (c : Char) (cs : List Char)
    (h0 : tickJsonSplit (c :: cs) = none) (h : NoSplitJ cs) :
    NoSplitJ (c :: cs) := by
  intro l₁ l₂ hdec
  cases l₁ with
  | nil =>
    have : l₂ = c :: cs := by simpa using hdec.symm
    rw [this]
    exact h0
  | cons a l₁' =>
    have h2 : cs = l₁' ++ l₂ := by
      have := hdec
      simp only [List.cons_append, List.cons.injEq] at this
      exact this.2
    exact h l₁' l₂ h2

theorem stripTicksF_fence (s : List Char) (hs : ¬ ticks3 <:+: s) :
    ∀ fuel, s.length + 4 ≤ fuel →
      stripTicksF fuel (s ++ '\n' :: ticks3) = s ++ ['\n'] := by
  induction s with
  | nil =>
    intro fuel hf
    match fuel, hf with
    | f + 1, hf =>
      have h0 : tickSplit ([] ++ '\n' :: ticks3) = none := rfl
      simp only [stripTicksF, h0, List.nil_append]
      match f, hf with
      | g + 1, _ =>
        have h1 : tickSplit ticks3 = some [] := rfl
        simp only [stripTicksF, h1, stripTicksF_nil]
        rfl
  | cons c s' ih =>
    intro fuel hf
    match fuel, hf with
    | f + 1, hf =>
      have h0 : tickSplit ((c :: s') ++ '\n' :: ticks3) = none := by
        cases hsp : tickSplit ((c :: s') ++ '\n' :: ticks3) with
        | none => rfl
        | some r =>
          exfalso
          obtain ⟨rest, hshape, -⟩ := tickSplit_some_shape _ _ hsp
          exact hs (ticks_prefix_of_append (c :: s') ticks3
            ⟨rest, hshape.symm⟩)
      have hs' : ¬ ticks3 <:+: s' := fun h => hs (List.infix_cons h)
      have hrec := ih hs' f (by simp at hf; omega)
      simp only [List.cons_append] at h0 ⊢
      simp only [stripTicksF, h0, hrec]

theorem tickJsonSplit_nl (X : List Char) :
    tickJsonSplit ('\n' :: X) = none := by
  apply tickJsonSplit_eq_none_aux
  intro c1 c2 c3 c4 rest heq
  injection heq with ha _
  exact absurd ha (by decide)

theorem tickJsonSplit_tick1 (X : List Char) :
    tickJsonSplit ('`' :: '\n' :: X) = none := by
  apply tickJsonSplit_eq_none_aux
  intro c1 c2 c3 c4 rest heq
  injection heq with _ heq
  injection heq with ha _
  exact absurd ha (by decide)

theorem tickJsonSplit_tick2 (X : List Char) :
    tickJsonSplit ('`' :: '`' :: '\n' :: X) = none := by
  apply tickJsonSplit_eq_none_aux
  intro c1 c2 c3 c4 rest heq
  injection heq with _ heq
  injection heq with _ heq
  injection heq with ha _
  exact absurd ha (by decide)

theorem tickJsonSplit_tick3 (X : List Char) :
    tickJsonSplit ('`' :: '`' :: '`' :: '\n' :: X) = none := by
  apply tickJsonSplit_eq_none_aux
  intro c1 c2 c3 c4 rest heq
  injection heq with _ heq
  injection heq with _ heq
  injection heq with _ heq
  injection heq with ha _
  rw [← ha]
  rfl

theorem noSplitJ_plain_fence (s : List Char) (hs : ¬ ticks3 <:+: s) :
    NoSplitJ ('`' :: '`' :: '`' :: '\n' :: (s ++ '\n' :: ticks3)) := by
  have b0 := noSplitJ_fence_tail s hs
  have b1 := noSplitJ_cons '\n' _ (tickJsonSplit_nl _) b0
  have b2 := noSplitJ_cons '`' _ (tickJsonSplit_tick1 _) b1
  have b3 := noSplitJ_cons '`' _ (tickJsonSplit_tick2 _) b2
  exact noSplitJ_cons '`' _ (tickJsonSplit_tick3 _) b3

theorem dropWhile_ws_append_nl (s : List Char) :
    (s ++ ['\n']).dropWhile (fun c => isWsChar c) =
      if s.dropWhile (fun c => isWsChar c) = [] then []
      else s.dropWhile (fun c => isWsChar c) ++ ['\n'] := by
  induction s with
  | nil => rfl
  | cons c s' ih =>
    by_cases hc : isWsChar c = true
    · simp only [List.cons_append, List.dropWhile_cons, hc, if_true, ih]
    · simp only [List.cons_append, List.dropWhile_cons, hc]
      simp

theorem trimChars_append_nl (s : List Char) :
    trimChars (s ++ ['\n']) = trimChars s := by
  unfold trimChars
  rw [dropWhile_ws_append_nl]
  by_cases hd : s.dropWhile (fun c => isWsChar c) = []
  · rw [if_pos hd, hd]
  · rw [if_neg hd]
    rw [List.reverse_append]
    simp only [List.reverse_cons, List.reverse_nil, List.nil_append,
      List.singleton_append, List.dropWhile_cons]
    rfl

theorem startsEndsQuote_eq_false (cs : List Char)
    (h : ¬ (cs.head? = some '"' ∧ cs.getLast? = some '"')) :
    startsEndsQuote cs = false := by
  unfold startsEndsQuote
  split
  · rename_i h1 h2
    exact absurd ⟨h1, h2⟩ h
  · rfl

theorem sanitizeJSON_eq_parse (x s : String)
    (hstrip : trimChars (stripTicks (stripTicksJson x.toList)) = s.toList)
    (hq : startsEndsQuote s.toList = false) :
    sanitizeJSON x = parseJson s := by
  unfold sanitizeJSON
  simp only [hstrip, hq, Bool.false_eq_true, if_false]
  rfl

theorem stripTicksJsonF_fence (s : List Char) (hs : ¬ ticks3 <:+: s) :
    ∀ fuel, 1 ≤ fuel →
      stripTicksJsonF fuel
        ('`' :: '`' :: '`' :: 'j' :: 's' :: 'o' :: 'n' :: '\n' ::
          (s ++ '\n' :: ticks3)) = s ++ '\n' :: ticks3 := by
  intro fuel hf
  match fuel, hf with
  | f + 1, _ =>
    have h0 : tickJsonSplit
        ('`' :: '`' :: '`' :: 'j' :: 's' :: 'o' :: 'n' :: '\n' ::
          (s ++ '\n' :: ticks3)) = some (s ++ '\n' :: ticks3) := rfl
    simp only [stripTicksJsonF, h0]
    exact stripTicksJsonF_eq_self f _ (noSplitJ_fence_tail s hs)

theorem stripTicksF_plain_fence (s : List Char) (hs : ¬ ticks3 <:+: s) :
    ∀ fuel, s.length + 5 ≤ fuel →
      stripTicksF fuel ('`' :: '`' :: '`' :: '\n' :: (s ++ '\n' :: ticks3)) =
        s ++ ['\n'] := by
  intro fuel hf
  match fuel, hf with
  | f + 1, hf =>
    have h0 : tickSplit ('`' :: '`' :: '`' :: '\n' :: (s ++ '\n' :: ticks3)) =
        some (s ++ '\n' :: ticks3) := rfl
    simp only [stripTicksF, h0]
    exact stripTicksF_fence s hs f (by omega)

/-- C9 counterexample: the claim fails at the JSON string value
`"hello"`.  Its serialization round-trips under direct parsing, but
`sanitizeJSON` unwraps the outer quotes (the `startsWith`/`endsWith`
branch), leaving the bare word `hello`, whose final parse throws —
both unfenced and fenced. -/
theorem sanitize_roundtrip_c9_counterexample :
    serialize (Json.str "hello") = "\"hello\"" ∧
    parseJson "\"hello\"" = some (Json.str "hello") ∧
    sanitizeJSON "\"hello\"" = none ∧
    sanitizeJSON ("```json\n" ++ "\"hello\"" ++ "\n```") = none :=
  ⟨rfl, rfl, rfl, rfl⟩

/-- C9 (amended): for a trimmed payload that contains no triple-backtick
run and does not both start and end with a double quote, `sanitizeJSON`
of the payload wrapped in a ```` ```json ````-fence, wrapped in a plain
```` ``` ````-fence, or unfenced, equals parsing the payload directly.
(Serializations of non-string JSON values without backtick runs satisfy
all three conditions.) -/
theorem sanitize_roundtrip_c9_amended (s : String)
    (h1 : ¬ ticks3 <:+: s.toList)
    (h2 : trimChars s.toList = s.toList)
    (h3 : ¬ (s.toList.head? = some '"' ∧ s.toList.getLast? = some '"')) :
    sanitizeJSON ("```json\n" ++ s ++ "\n```") = parseJson s ∧
    sanitizeJSON ("```\n" ++ s ++ "\n```") = parseJson s ∧
    sanitizeJSON s = parseJson s := by
  have hq := startsEndsQuote_eq_false s.toList h3
  refine ⟨?_, ?_, ?_⟩
  · apply sanitizeJSON_eq_parse _ _ _ hq
    have hx : ("```json\n" ++ s ++ "\n```").toList =
        '`' :: '`' :: '`' :: 'j' :: 's' :: 'o' :: 'n' :: '\n' ::
          (s.toList ++ '\n' :: ticks3) := by
      simp only [String.toList, String.data_append]
      rfl
    rw [hx]
    unfold stripTicksJson
    rw [stripTicksJsonF_fence s.toList h1 _ (by simp)]
    unfold stripTicks
    rw [stripTicksF_fence s.toList h1 _ (by simp [ticks3])]
    rw [trimChars_append_nl, h2]
  · apply sanitizeJSON_eq_parse _ _ _ hq
    have hx : ("```\n" ++ s ++ "\n```").toList =
        '`' :: '`' :: '`' :: '\n' :: (s.toList ++ '\n' :: ticks3) := by
      simp only [String.toList, String.data_append]
      rfl
    rw [hx]
    unfold stripTicksJson
    rw [stripTicksJsonF_eq_self _ _ (noSplitJ_plain_fence s.toList h1)]
    unfold stripTicks
    rw [stripTicksF_plain_fence s.toList h1 _ (by simp [ticks3])]
    rw [trimChars_append_nl, h2]
  · apply sanitizeJSON_eq_parse _ _ _ hq
    unfold stripTicksJson
    rw [stripTicksJsonF_eq_self _ _ (noSplitJ_of_no_ticks s.toList h1)]
    unfold stripTicks
    rw [stripTicksF_eq_self _ _ (noSplitT_of_no_ticks s.toList h1)]
    exact h2

theorem sanitize_roundtrip_c9_witness :
    sanitizeJSON ("```json\n" ++ "[1,2]" ++ "\n```") = parseJson "[1,2]" ∧
    sanitizeJSON ("```\n" ++ "[1,2]" ++ "\n```") = parseJson "[1,2]" ∧
    sanitizeJSON "[1,2]" = parseJson "[1,2]" :=
  sanitize_roundtrip_c9_amended "[1,2]" (by decide) (by decide) (by decide)

theorem no_base_steps_c10_witness :
    flushExpected.steps ≠ [] ∧
    ∀ st ∈ flushExpected.steps,
      st.screenId ∉ baseScreenIds (flushEvents.map SegEvent.screenId) :=
  no_base_steps_c10 flushEvents [] flushExpected (by decide)

/-! ## Degenerate inputs (both segmenter strategies) -/

/-- C7: event lists of length at most 1 short-circuit: the heuristic
segmenter returns no instances; the collaborator-driven segmenter
returns no instances for zero events and one trivial instance spanning
the single event for one event; and in those cases its result is
independent of the collaborator (no collaborator call is made). -/
theorem degenerate_inputs_c7 :
    (∀ (events : List SegEvent) (lookup : List (String × String)),
      events.length ≤ 1 → segmentWorkflows events lookup = []) ∧
    (∀ (collab : Except Unit (List SegInstResp))
      (screens : List CanonicalScreen),
      segmentInstances collab [] screens = ⟨[]⟩) ∧
    (∀ (collab : Except Unit (List SegInstResp))
      (screens : List CanonicalScreen) (e : CapturedEvent),
      segmentInstances collab [e] screens =
        ⟨[⟨"Single action", 0, 0, true, [e]⟩]⟩) ∧
    (∀ (c c' : Except Unit (List SegInstResp))
      (screens screens' : List CanonicalScreen)
      (events : List CapturedEvent), events.length ≤ 1 →
      segmentInstances c events screens =
        segmentInstances c' events screens') := by
  refine ⟨?_, fun _ _ => rfl, fun _ _ _ => rfl, ?_⟩
  · intro events lookup h
    rw [segmentWorkflows, if_pos h]
  · intro c c' screens screens' events h
    match events with
    | [] => rfl
    | [e] => rfl
    | e1 :: e2 :: rest => simp at h

theorem degenerate_inputs_c7_witness :
    segmentWorkflows [⟨"A", "a0", "p0"⟩] [] = [] ∧
    segmentInstances (Except.error ()) [] [] = ⟨[]⟩ ∧
    segmentInstances (Except.error ()) [pipeEvent1] [] =
      ⟨[⟨"Single action", 0, 0, true, [pipeEvent1]⟩]⟩ ∧
    segmentInstances (Except.error ()) [pipeEvent1] [] =
      segmentInstances (Except.ok []) [pipeEvent1] [] :=
  ⟨degenerate_inputs_c7.1 [⟨"A", "a0", "p0"⟩] [] (by decide),
   degenerate_inputs_c7.2.1 (Except.error ()) [],
   degenerate_inputs_c7.2.2.1 (Except.error ()) [] pipeEvent1,
   degenerate_inputs_c7.2.2.2 (Except.error ()) (Except.ok []) [] []
     [pipeEvent1] (by decide)⟩

/-! ## Clamping and ordering of detected instances -/

/-- C5: for events of length at least 2 and any parsed collaborator
segmentation response, every built instance has both indices clamped
into `[0, events.length - 1]` with `start ≤ end`, its `events` field is
the inclusive slice `events[start..end]`, and the result is sorted by
`startEventIndex` ascending. -/
theorem segment_clamp_sort_c5 (events : List CapturedEvent)
    (screens : List CanonicalScreen) (resp : List SegInstResp)
    (hlen : 2 ≤ events.length) :
    (∀ inst ∈ (segmentInstances (.ok resp) events screens).instances,
      0 ≤ inst.startEventIndex ∧
      inst.startEventIndex ≤ inst.endEventIndex ∧
      inst.endEventIndex ≤ (events.length : Int) - 1 ∧
      inst.events = (events.drop inst.startEventIndex.toNat).take
        (inst.endEventIndex + 1 - inst.startEventIndex).toNat) ∧
    List.Sorted instLe (segmentInstances (.ok resp) events screens).instances := by
  match events, hlen with
  | e1 :: e2 :: rest, _ =>
    constructor
    · intro inst hmem
      simp only [segmentInstances] at hmem
      have hmem2 : inst ∈ (resp.map (mkDetected (e1 :: e2 :: rest))) :=
        (List.mem_insertionSort instLe).mp hmem
      obtain ⟨r, -, hr⟩ := List.mem_map.mp hmem2
      subst hr
      refine ⟨?_, ?_, ?_, rfl⟩
      · exact le_max_left 0 _
      · exact le_max_left _ _
      · apply max_le
        · apply max_le
          · simp only [List.length_cons]
            push_cast
            omega
          · exact min_le_right _ _
        · exact min_le_right _ _
    · exact List.sorted_insertionSort instLe _

theorem segment_clamp_sort_c5_witness :
    (∀ inst ∈ (segmentInstances
        (.ok [⟨"g", (-3 : Int), 99, true⟩]) [pipeEvent1, pipeEvent2]
        []).instances,
      0 ≤ inst.startEventIndex ∧
      inst.startEventIndex ≤ inst.endEventIndex ∧
      inst.endEventIndex ≤ (([pipeEvent1, pipeEvent2] : List CapturedEvent).length : Int) - 1 ∧
      inst.events = (([pipeEvent1, pipeEvent2] : List CapturedEvent).drop
          inst.startEventIndex.toNat).take
        (inst.endEventIndex + 1 - inst.startEventIndex).toNat) ∧
    List.Sorted instLe (segmentInstances
      (.ok [⟨"g", (-3 : Int), 99, true⟩]) [pipeEvent1, pipeEvent2]
      []).instances :=
  segment_clamp_sort_c5 [pipeEvent1, pipeEvent2] []
    [⟨"g", (-3 : Int), 99, true⟩] (by decide)

/-! ## Lemmas about the canonicalizer -/

theorem addToGroup_keys (gs : List (String × List CapturedEvent))
    (p : String) (e : CapturedEvent) :
    (addToGroup gs p e).map Prod.fst =
      if p ∈ gs.map Prod.fst then gs.map Prod.fst
      else gs.map Prod.fst ++ [p] := by
  induction gs with
  | nil => simp [addToGroup]
  | cons g rest ih =>
    obtain ⟨q, es⟩ := g
    by_cases h : q = p
    · simp [addToGroup, h]
    · simp only [addToGroup, if_neg h, List.map_cons, List.mem_cons]
      rw [ih]
      by_cases h2 : p ∈ rest.map Prod.fst
      · simp [h2, Ne.symm h]
      · simp [h2, Ne.symm h]

theorem groupBy_keys_aux (evs : List CapturedEvent)
    (acc : List (String × List CapturedEvent)) :
    ((evs.foldl (fun gs e => addToGroup gs (extractUrlPattern e.url) e)
        acc).map Prod.fst) =
      (evs.map fun e => extractUrlPattern e.url).foldl
        (fun acc2 x => if x ∈ acc2 then acc2 else acc2 ++ [x])
        (acc.map Prod.fst) := by
  induction evs generalizing acc with
  | nil => rfl
  | cons e evs ih =>
    simp only [List.foldl_cons, List.map_cons]
    rw [ih, addToGroup_keys]

theorem groupBy_keys (events : List CapturedEvent) :
    (groupByUrlPattern events).map Prod.fst = distinctPatterns events :=
  groupBy_keys_aux events []

theorem mem_dedupFirst_aux (xs : List String) (acc : List String)
    (x : String) :
    (x ∈ xs.foldl
        (fun acc2 y => if y ∈ acc2 then acc2 else acc2 ++ [y]) acc) ↔
      x ∈ acc ∨ x ∈ xs := by
  induction xs generalizing acc with
  | nil => simp
  | cons y xs ih =>
    rw [List.foldl_cons, ih]
    by_cases h : y ∈ acc
    · rw [if_pos h]
      simp only [List.mem_cons]
      constructor
      · rintro (hc | hc)
        · exact Or.inl hc
        · exact Or.inr (Or.inr hc)
      · rintro (hc | hc | hc)
        · exact Or.inl hc
        · exact Or.inl (hc ▸ h)
        · exact Or.inr hc
    · rw [if_neg h]
      simp only [List.mem_append, List.mem_singleton, List.mem_cons]
      tauto

theorem mem_distinctPatterns (events : List CapturedEvent)
    (e : CapturedEvent) (he : e ∈ events) :
    extractUrlPattern e.url ∈ distinctPatterns events := by
  unfold distinctPatterns dedupFirst
  rw [mem_dedupFirst_aux]
  exact Or.inr (List.mem_map_of_mem _ he)

theorem findIdx_key (gs : List (String × List CapturedEvent)) (p : String)
    (hp : p ∈ gs.map Prod.fst) :
    ∃ j g, gs.findIdx? (fun g => g.1 = p) = some j ∧
      gs.get? j = some g ∧ g.1 = p := by
  induction gs with
  | nil => simp at hp
  | cons g rest ih =>
    by_cases h : g.1 = p
    · exact ⟨0, g, by simp [List.findIdx?_cons, h], rfl, h⟩
    · have hp2 : p ∈ rest.map Prod.fst := by
        simp only [List.map_cons, List.mem_cons] at hp
        exact hp.resolve_left fun hc => h hc.symm
      obtain ⟨j, g2, hfind, hget, hkey⟩ := ih hp2
      refine ⟨j + 1, g2, ?_, hget, hkey⟩
      simp [List.findIdx?_cons, h, hfind]

theorem lookup_cons_ne {β : Type} (k q : Nat) (v : β)
    (es : List (Nat × β)) (h : k ≠ q) :
    List.lookup k ((q, v) :: es) = List.lookup k es := by
  rw [List.lookup, beq_eq_false_iff_ne.mpr h]

theorem lookup_cons_self {β : Type} (k : Nat) (v : β)
    (es : List (Nat × β)) :
    List.lookup k ((k, v) :: es) = some v := by
  rw [List.lookup, beq_self_eq_true]

theorem lookup_enumFrom_filter_lt (f : CapturedEvent → Bool) (v : String)
    (evs : List CapturedEvent) :
    ∀ (n m : Nat), m < n →
      List.lookup m (((List.enumFrom n evs).filter
        fun pr => f pr.2).map fun pr => (pr.1, v)) = none := by
  induction evs with
  | nil => intro n m _; rfl
  | cons a evs ih =>
    intro n m hm
    simp only [List.enumFrom, List.filter_cons]
    by_cases hfa : f a = true
    · simp only [hfa, if_true, List.map_cons]
      rw [lookup_cons_ne m n v _ (Nat.ne_of_lt hm)]
      exact ih (n + 1) m (by omega)
    · simp only [hfa, Bool.false_eq_true, if_false]
      exact ih (n + 1) m (by omega)

theorem lookup_enumFrom_filter (f : CapturedEvent → Bool) (v : String)
    (evs : List CapturedEvent) :
    ∀ (n idx : Nat) (e : CapturedEvent), evs.get? idx = some e →
      List.lookup (n + idx) (((List.enumFrom n evs).filter
        fun pr => f pr.2).map fun pr => (pr.1, v)) =
        if f e then some v else none := by
  induction evs with
  | nil => intro n idx e he; simp at he
  | cons a evs ih =>
    intro n idx e he
    simp only [List.enumFrom, List.filter_cons]
    cases idx with
    | zero =>
      simp only [List.get?] at he
      obtain rfl : a = e := by injection he
      by_cases hfa : f a = true
      · simp only [hfa, if_true, List.map_cons, Nat.add_zero]
        rw [lookup_cons_self]
      · simp only [hfa, Bool.false_eq_true, if_false, Nat.add_zero]
        rw [lookup_enumFrom_filter_lt f v evs (n + 1) n (by omega)]
    | succ j =>
      simp only [List.get?] at he
      have harith : n + (j + 1) = (n + 1) + j := by omega
      by_cases hfa : f a = true
      · simp only [hfa, if_true, List.map_cons]
        rw [lookup_cons_ne _ n v _ (by omega), harith]
        exact ih (n + 1) j e he
      · simp only [hfa, Bool.false_eq_true, if_false]
        rw [harith]
        exact ih (n + 1) j e he

theorem lookup_enumFrom_filterMap_lt (f : CapturedEvent → Option String)
    (evs : List CapturedEvent) :
    ∀ (n m : Nat), m < n →
      List.lookup m ((List.enumFrom n evs).filterMap
        fun pr => (f pr.2).map fun sid => (pr.1, sid)) = none := by
  induction evs with
  | nil => intro n m _; rfl
  | cons a evs ih =>
    intro n m hm
    simp only [List.enumFrom, List.filterMap_cons]
    cases hfa : f a with
    | none =>
      simp only [hfa, Option.map_none']
      exact ih (n + 1) m (by omega)
    | some sid =>
      simp only [hfa, Option.map_some']
      rw [lookup_cons_ne m n sid _ (Nat.ne_of_lt hm)]
      exact ih (n + 1) m (by omega)

theorem lookup_enumFrom_filterMap (f : CapturedEvent → Option String)
    (evs : List CapturedEvent) :
    ∀ (n idx : Nat) (e : CapturedEvent), evs.get? idx = some e →
      List.lookup (n + idx) ((List.enumFrom n evs).filterMap
        fun pr => (f pr.2).map fun sid => (pr.1, sid)) = f e := by
  induction evs with
  | nil => intro n idx e he; simp at he
  | cons a evs ih =>
    intro n idx e he
    simp only [List.enumFrom, List.filterMap_cons]
    cases idx with
    | zero =>
      simp only [List.get?] at he
      obtain rfl : a = e := by injection he
      cases hfa : f a with
      | none =>
        simp only [hfa, Option.map_none', Nat.add_zero]
        exact lookup_enumFrom_filterMap_lt f evs (n + 1) n (by omega)
      | some sid =>
        simp only [hfa, Option.map_some', Nat.add_zero]
        rw [lookup_cons_self]
    | succ j =>
      simp only [List.get?] at he
      have harith : n + (j + 1) = (n + 1) + j := by omega
      cases hfa : f a with
      | none =>
        simp only [hfa, Option.map_none']
        rw [harith]
        exact ih (n + 1) j e he
      | some sid =>
        simp only [hfa, Option.map_some']
        rw [lookup_cons_ne _ n sid _ (by omega), harith]
        exact ih (n + 1) j e he

theorem fallbackScreensAux_spec (mkId : Nat → String)
    (gs : List (String × List CapturedEvent)) :
    ∀ k, (fallbackScreensAux mkId k gs).map
        (fun s => (s.label, s.urlPatterns)) =
      fallbackLabelsSpec k (gs.map Prod.fst) := by
  induction gs with
  | nil => intro k; rfl
  | cons g gs ih =>
    intro k
    simp only [fallbackScreensAux, List.map_cons, fallbackLabelsSpec]
    rw [ih]

theorem fallbackScreensAux_get (mkId : Nat → String)
    (gs : List (String × List CapturedEvent)) :
    ∀ (k j : Nat) (g : String × List CapturedEvent), gs.get? j = some g →
      (fallbackScreensAux mkId k gs).get? j =
        some ⟨mkId (k + j), "Screen " ++ toString (k + j + 1),
          "Screen at " ++ g.1, [g.1],
          match g.2 with
          | [] => ""
          | e :: _ => e.screenshotPath⟩ := by
  induction gs with
  | nil => intro k j g hg; simp at hg
  | cons g0 gs ih =>
    intro k j g hg
    cases j with
    | zero =>
      simp only [List.get?] at hg
      obtain rfl : g0 = g := by injection hg
      simp [fallbackScreensAux]
    | succ j =>
      simp only [List.get?] at hg
      have harith : k + (j + 1) = (k + 1) + j := by omega
      simp only [fallbackScreensAux, List.get?]
      rw [harith]
      exact ih (k + 1) j g hg

theorem enum_eq_enumFrom_zero (l : List CapturedEvent) :
    l.enum = List.enumFrom 0 l := rfl

theorem lookup_fallbackMappingsAux (mkId : Nat → String)
    (events : List CapturedEvent) (idx : Nat) (e : CapturedEvent)
    (he : events.get? idx = some e) :
    ∀ (gs : List (String × List CapturedEvent)) (i j : Nat),
      gs.findIdx? (fun g => g.1 = extractUrlPattern e.url) = some j →
      List.lookup idx (fallbackMappingsAux mkId events i gs) =
        some (mkId (i + j)) := by
  intro gs
  induction gs with
  | nil => intro i j hj; simp at hj
  | cons g gs ih =>
    intro i j hj
    rw [List.findIdx?_cons] at hj
    have hlook := lookup_enumFrom_filter
      (fun ev => extractUrlPattern ev.url = g.1) (mkId i) events 0 idx e he
    rw [Nat.zero_add] at hlook
    by_cases hkey : g.1 = extractUrlPattern e.url
    · rw [if_pos (by simpa using hkey)] at hj
      injection hj with hj
      subst hj
      simp only [fallbackMappingsAux]
      rw [enum_eq_enumFrom_zero, List.lookup_append, hlook,
        if_pos (by simpa using hkey.symm)]
      simp
    · rw [if_neg (by simpa using hkey), List.findIdx?_succ] at hj
      cases hfind : gs.findIdx?
          (fun g => decide (g.1 = extractUrlPattern e.url)) with
      | none => rw [hfind] at hj; simp at hj
      | some j2 =>
        rw [hfind] at hj
        simp only [Option.map_some'] at hj
        injection hj with hj
        subst hj
        simp only [fallbackMappingsAux]
        rw [enum_eq_enumFrom_zero, List.lookup_append, hlook,
          if_neg (by simpa using fun hc => hkey hc.symm)]
        have harith : i + (j2 + 1) = (i + 1) + j2 := by omega
        rw [Option.none_or, harith]
        exact ih (i + 1) j2 (by simpa using hfind)

/-- C8: on a collaborator failure (thrown error or malformed response),
`canonicalizeScreens` returns (never throws) exactly one
`CanonicalScreen` per distinct URL pattern, labelled with the generic
ordinal `Screen N` in first-occurrence order, and maps every event index
(and every event's `screenId`) to the screen of its URL pattern. -/
theorem canonicalize_fallback_c8 (mkId : Nat → String)
    (events : List CapturedEvent) :
    ((canonicalizeScreens mkId (.error ()) events).screens.map
        (fun s => (s.label, s.urlPatterns)) =
      fallbackLabelsSpec 0 (distinctPatterns events)) ∧
    (∀ (idx : Nat) (e : CapturedEvent), events.get? idx = some e →
      ∃ scr, scr ∈ (canonicalizeScreens mkId (.error ()) events).screens ∧
        scr.urlPatterns = [extractUrlPattern e.url] ∧
        List.lookup idx
          (canonicalizeScreens mkId (.error ()) events).eventScreenMappings
          = some scr.id ∧
        (canonicalizeScreens mkId (.error ()) events).events.get? idx =
          some { e with screenId := some scr.id }) := by
  cases hevs : events with
  | nil => exact ⟨rfl, fun idx e he => by simp at he⟩
  | cons e0 evs =>
    rw [← hevs]
    have hne : ¬ events.length = 0 := by rw [hevs]; simp
    have hred : canonicalizeScreens mkId (.error ()) events =
        ⟨fallbackScreensAux mkId 0 (groupByUrlPattern events),
          fallbackMappingsAux mkId events 0 (groupByUrlPattern events),
          fallbackEvents mkId (groupByUrlPattern events) events⟩ := by
      rw [canonicalizeScreens, if_neg hne]
    rw [hred]
    constructor
    · rw [fallbackScreensAux_spec, groupBy_keys]
    · intro idx e he
      have hmem : e ∈ events := by
        exact List.get?_mem he
      have hpat : extractUrlPattern e.url ∈
          (groupByUrlPattern events).map Prod.fst := by
        rw [groupBy_keys]
        exact mem_distinctPatterns events e hmem
      obtain ⟨j, g, hfind, hget, hkey⟩ :=
        findIdx_key (groupByUrlPattern events) (extractUrlPattern e.url) hpat
      refine ⟨⟨mkId j, "Screen " ++ toString (j + 1), "Screen at " ++ g.1,
        [g.1], match g.2 with
               | [] => ""
               | ev :: _ => ev.screenshotPath⟩, ?_, ?_, ?_, ?_⟩
      · have := fallbackScreensAux_get mkId (groupByUrlPattern events)
          0 j g hget
        rw [Nat.zero_add] at this
        exact List.get?_mem this
      · simp [hkey]
      · have := lookup_fallbackMappingsAux mkId events idx e he
          (groupByUrlPattern events) 0 j hfind
        rw [Nat.zero_add] at this
        exact this
      · unfold fallbackEvents
        rw [List.get?_map, he]
        simp only [Option.map_some']
        rw [hfind]

theorem canonicalize_fallback_c8_witness :
    ((canonicalizeScreens pipeMkId (.error ()) [pipeEvent1]).screens.map
        (fun s => (s.label, s.urlPatterns)) =
      fallbackLabelsSpec 0 (distinctPatterns [pipeEvent1])) ∧
    (∃ scr, scr ∈ (canonicalizeScreens pipeMkId (.error ())
        [pipeEvent1]).screens ∧
      scr.urlPatterns = [extractUrlPattern pipeEvent1.url] ∧
      List.lookup 0 (canonicalizeScreens pipeMkId (.error ())
        [pipeEvent1]).eventScreenMappings = some scr.id ∧
      (canonicalizeScreens pipeMkId (.error ()) [pipeEvent1]).events.get? 0 =
        some { pipeEvent1 with screenId := some scr.id }) :=
  ⟨(canonicalize_fallback_c8 pipeMkId [pipeEvent1]).1,
    (canonicalize_fallback_c8 pipeMkId [pipeEvent1]).2 0 pipeEvent1 rfl⟩

theorem lookupZ_cons (g q : Int) (w : String) (es : List (Int × String)) :
    List.lookup g ((q, w) :: es) =
      if g = q then some w else List.lookup g es := by
  by_cases h : g = q
  · rw [List.lookup, beq_iff_eq.mpr h, if_pos h]
  · rw [List.lookup, beq_eq_false_iff_ne.mpr h, if_neg h]

theorem setAssoc_lookup (m : List (Int × String)) (k g : Int)
    (v : String) :
    List.lookup g (setAssoc m k v) =
      if k = g then some v else List.lookup g m := by
  induction m with
  | nil =>
    simp only [setAssoc]
    rw [lookupZ_cons]
    by_cases h : g = k
    · rw [if_pos h, if_pos h.symm]
    · rw [if_neg h, if_neg fun hc => h hc.symm]
  | cons p m ih =>
    obtain ⟨q, w⟩ := p
    simp only [setAssoc]
    by_cases hqk : q = k
    · rw [if_pos hqk]
      subst hqk
      rw [lookupZ_cons, lookupZ_cons]
      by_cases hg : g = q
      · rw [if_pos hg, if_pos hg.symm]
      · rw [if_neg hg, if_neg hg, if_neg fun hc => hg hc.symm]
    · rw [if_neg hqk, lookupZ_cons, lookupZ_cons, ih]
      by_cases hg : g = q
      · rw [if_pos hg, if_pos hg, if_neg fun hc => hqk (hc.trans hg).symm]
      · rw [if_neg hg, if_neg hg]

theorem foldl_setAssoc_lookup (gids : List Int) (v : String) (g : Int) :
    ∀ m, List.lookup g (gids.foldl (fun m g2 => setAssoc m g2 v) m) =
      if g ∈ gids then some v else List.lookup g m := by
  induction gids with
  | nil => intro m; simp
  | cons g2 gids ih =>
    intro m
    simp only [List.foldl_cons]
    rw [ih]
    by_cases hmem : g ∈ gids
    · simp [hmem]
    · rw [if_neg hmem, setAssoc_lookup]
      by_cases heq : g2 = g
      · simp [heq]
      · rw [if_neg heq, if_neg ?_]
        intro hc
        rcases List.mem_cons.mp hc with hc | hc
        · exact heq hc.symm
        · exact hmem hc

theorem gidMapAux_lookup_none (mkId : Nat → String) (g : Int) :
    ∀ (resp : List ScreenTypeResp) (k : Nat) (m : List (Int × String)),
      List.lookup g (gidMapAux mkId k resp m) = none ↔
        (∀ st ∈ resp, g ∉ st.groupIds) ∧ List.lookup g m = none := by
  intro resp
  induction resp with
  | nil => intro k m; simp [gidMapAux]
  | cons st resp ih =>
    intro k m
    simp only [gidMapAux]
    rw [ih, foldl_setAssoc_lookup]
    constructor
    · rintro ⟨hall, hm⟩
      by_cases hmem : g ∈ st.groupIds
      · rw [if_pos hmem] at hm
        exact (Option.some_ne_none _ hm).elim
      · rw [if_neg hmem] at hm
        refine ⟨?_, hm⟩
        intro st2 hst2
        rcases List.mem_cons.mp hst2 with h | h
        · subst h; exact hmem
        · exact hall st2 h
    · rintro ⟨hall, hm⟩
      have hmem : g ∉ st.groupIds := hall st (List.mem_cons_self st resp)
      refine ⟨fun st2 hst2 => hall st2 (List.mem_cons_of_mem _ hst2), ?_⟩
      rw [if_neg hmem]
      exact hm

/-- C1 counterexample: a single event whose URL-pattern group the
collaborator leaves unclustered (a well-formed `screenTypes: []`
response) yields no screen at all — not a singleton `CanonicalScreen` —
and the event is neither mapped nor given a `screenId`. -/
theorem canonicalize_unclustered_c1_counterexample :
    (canonicalizeScreens pipeMkId (.ok []) [pipeEvent1]).screens = [] ∧
    List.lookup 0
      (canonicalizeScreens pipeMkId (.ok []) [pipeEvent1]).eventScreenMappings
      = none ∧
    (canonicalizeScreens pipeMkId (.ok []) [pipeEvent1]).events =
      [pipeEvent1] := by
  decide

/-- C1 (amended): in the success path of `canonicalizeScreens`, an event
is mapped (and its `screenId` set) exactly when its URL-pattern group id
appears in some returned cluster; groups the collaborator does not
include in any cluster produce no screen, and their events are left
unmapped with `screenId` unchanged. -/
theorem canonicalize_clustered_c1_amended (mkId : Nat → String)
    (resp : List ScreenTypeResp) (events : List CapturedEvent)
    (idx : Nat) (e : CapturedEvent) (he : events.get? idx = some e) :
    ((∃ st ∈ resp,
        findGroupIdx (groupByUrlPattern events) (extractUrlPattern e.url) ∈
          st.groupIds) →
      ∃ sid, List.lookup idx
          (canonicalizeScreens mkId (.ok resp) events).eventScreenMappings
          = some sid ∧
        (canonicalizeScreens mkId (.ok resp) events).events.get? idx =
          some { e with screenId := some sid }) ∧
    ((∀ st ∈ resp,
        findGroupIdx (groupByUrlPattern events) (extractUrlPattern e.url) ∉
          st.groupIds) →
      List.lookup idx
        (canonicalizeScreens mkId (.ok resp) events).eventScreenMappings
        = none ∧
      (canonicalizeScreens mkId (.ok resp) events).events.get? idx =
        some e) := by
  have hne : ¬ events.length = 0 := by
    cases events with
    | nil => simp at he
    | cons a l => simp
  have hred : canonicalizeScreens mkId (.ok resp) events =
      ⟨successScreensAux (groupByUrlPattern events) mkId 0 resp,
        successMappings (groupByUrlPattern events)
          (gidMapAux mkId 0 resp []) events,
        successEvents (groupByUrlPattern events)
          (gidMapAux mkId 0 resp []) events⟩ := by
    rw [canonicalizeScreens, if_neg hne]
  rw [hred]
  have h1 := lookup_enumFrom_filterMap
    (fun ev => List.lookup
      (findGroupIdx (groupByUrlPattern events) (extractUrlPattern ev.url))
      (gidMapAux mkId 0 resp [])) events 0 idx e he
  rw [Nat.zero_add] at h1
  simp only [] at h1
  constructor
  · rintro ⟨st, hst, hgid⟩
    have hs : List.lookup
        (findGroupIdx (groupByUrlPattern events) (extractUrlPattern e.url))
        (gidMapAux mkId 0 resp []) ≠ none := by
      intro hcontra
      rw [gidMapAux_lookup_none] at hcontra
      exact hcontra.1 st hst hgid
    obtain ⟨sid, hsid⟩ := Option.ne_none_iff_exists'.mp hs
    refine ⟨sid, ?_, ?_⟩
    · unfold successMappings
      rw [enum_eq_enumFrom_zero, h1, hsid]
    · unfold successEvents
      rw [List.get?_map, he]
      simp only [Option.map_some']
      rw [hsid]
  · intro hall
    have hs : List.lookup
        (findGroupIdx (groupByUrlPattern events) (extractUrlPattern e.url))
        (gidMapAux mkId 0 resp []) = none := by
      rw [gidMapAux_lookup_none]
      exact ⟨hall, rfl⟩
    constructor
    · unfold successMappings
      rw [enum_eq_enumFrom_zero, h1, hs]
    · unfold successEvents
      rw [List.get?_map, he]
      simp only [Option.map_some']
      rw [hs]

theorem canonicalize_clustered_c1_witness :
    ∃ sid, List.lookup 0
        (canonicalizeScreens pipeMkId
          (.ok [⟨[0], "Landing", "The landing page"⟩])
          [pipeEvent1]).eventScreenMappings = some sid ∧
      (canonicalizeScreens pipeMkId
        (.ok [⟨[0], "Landing", "The landing page"⟩])
        [pipeEvent1]).events.get? 0 =
        some { pipeEvent1 with screenId := some sid } :=
  (canonicalize_clustered_c1_amended pipeMkId
    [⟨[0], "Landing", "The landing page"⟩] [pipeEvent1] 0 pipeEvent1
    rfl).1 ⟨⟨[0], "Landing", "The landing page"⟩, by decide, by decide⟩

/-! ## Persistence of (template, instance) pairs -/

theorem persistList_all_ok {α : Type} (apply : Db → α → Db)
    (ok : Nat → Bool) (hok : ∀ n, ok n = true) :
    ∀ (xs : List α) (db : Db) (n : Nat),
      persistList apply ok db n xs = (xs.foldl apply db, n + xs.length, true) := by
  intro xs
  induction xs with
  | nil => intro db n; simp [persistList]
  | cons x xs ih =>
    intro db n
    simp only [persistList, hok n, if_true, ih, List.foldl_cons,
      List.length_cons]
    have harith : n + 1 + xs.length = n + (xs.length + 1) := by omega
    rw [harith]

theorem foldl_insScreenOp (xs : List CanonicalScreen) (d : Db) :
    xs.foldl insScreenOp d =
      ⟨xs.foldl (replaceOrAppend CanonicalScreen.id) d.screens,
        d.templates, d.instances⟩ := by
  induction xs generalizing d with
  | nil => rfl
  | cons x xs ih => simp [insScreenOp, ih]

theorem foldl_insTemplateOp (xs : List WorkflowTemplate) (d : Db) :
    xs.foldl insTemplateOp d =
      ⟨d.screens,
        xs.foldl (replaceOrAppend WorkflowTemplate.id) d.templates,
        d.instances⟩ := by
  induction xs generalizing d with
  | nil => rfl
  | cons x xs ih => simp [insTemplateOp, ih]

theorem foldl_insInstanceOp (xs : List WorkflowInstance) (d : Db) :
    xs.foldl insInstanceOp d =
      ⟨d.screens, d.templates, d.instances ++ xs⟩ := by
  induction xs generalizing d with
  | nil => simp
  | cons x xs ih => simp [insInstanceOp, ih]

/-- C2 counterexample: a concrete pipeline run (two events, stage
fallbacks, one synthesized pair) in which the template insert succeeds
and the instance insert fails: the run ends with the template persisted
and no instance — the pair is split. -/
theorem persist_pair_c2_counterexample :
    (runFinalizationPipeline pipeMkId (.error ()) (.error ()) pipeSynth
      (fun n => decide (n ≤ 1)) ⟨[], [], []⟩
      [pipeEvent1, pipeEvent2]).1.templates = [pipeTemplate] ∧
    (runFinalizationPipeline pipeMkId (.error ()) (.error ()) pipeSynth
      (fun n => decide (n ≤ 1)) ⟨[], [], []⟩
      [pipeEvent1, pipeEvent2]).1.instances = [] ∧
    (runFinalizationPipeline pipeMkId (.error ()) (.error ()) pipeSynth
      (fun n => decide (n ≤ 1)) ⟨[], [], []⟩
      [pipeEvent1, pipeEvent2]).2 = none := by
  decide

/-- C2 (amended): persistence is three sequential per-row insert loops
with no transaction.  When every insert succeeds, every synthesized
pair is fully persisted: all templates are upserted and all instances
appended, and the run reports success; a failure partway (as in the
counterexample) can leave templates written without their paired
instances. -/
theorem persist_pair_c2_amended (mkId : Nat → String)
    (collabCanon : Except Unit (List ScreenTypeResp))
    (collabSeg : Except Unit (List SegInstResp))
    (synth : DetectedInstance → SynthesisResult)
    (ok : Nat → Bool) (db : Db) (events : List CapturedEvent)
    (hok : ∀ n, ok n = true) :
    (runFinalizationPipeline mkId collabCanon collabSeg synth ok db
      events).2 ≠ none ∧
    (runFinalizationPipeline mkId collabCanon collabSeg synth ok db
      events).1.instances =
      db.instances ++
        (pipelinePairs mkId collabCanon collabSeg synth events).map
          SynthesisResult.inst ∧
    (runFinalizationPipeline mkId collabCanon collabSeg synth ok db
      events).1.templates =
      ((pipelinePairs mkId collabCanon collabSeg synth events).map
          SynthesisResult.template).foldl
        (replaceOrAppend WorkflowTemplate.id) db.templates := by
  unfold runFinalizationPipeline pipelinePairs
  by_cases h0 : events.length = 0
  · simp [h0]
  · simp only [h0, if_false]
    cases hins : (segmentInstances collabSeg
        (canonicalizeScreens mkId collabCanon events).events
        (canonicalizeScreens mkId collabCanon events).screens).instances with
    | nil =>
      simp only [persistList_all_ok _ ok hok, foldl_insScreenOp, if_true]
      refine ⟨by simp, by simp, by simp⟩
    | cons i is =>
      simp only [persistList_all_ok _ ok hok, foldl_insScreenOp,
        foldl_insTemplateOp, foldl_insInstanceOp, if_true]
      refine ⟨by simp, by simp, by simp⟩

theorem persist_pair_c2_witness :
    (runFinalizationPipeline pipeMkId (.error ()) (.error ()) pipeSynth
      (fun _ => true) ⟨[], [], []⟩ [pipeEvent1, pipeEvent2]).2 ≠ none ∧
    (runFinalizationPipeline pipeMkId (.error ()) (.error ()) pipeSynth
      (fun _ => true) ⟨[], [], []⟩ [pipeEvent1, pipeEvent2]).1.instances =
      Db.instances ⟨[], [], []⟩ ++
        (pipelinePairs pipeMkId (.error ()) (.error ()) pipeSynth
          [pipeEvent1, pipeEvent2]).map SynthesisResult.inst ∧
    (runFinalizationPipeline pipeMkId (.error ()) (.error ()) pipeSynth
      (fun _ => true) ⟨[], [], []⟩ [pipeEvent1, pipeEvent2]).1.templates =
      ((pipelinePairs pipeMkId (.error ()) (.error ()) pipeSynth
          [pipeEvent1, pipeEvent2]).map SynthesisResult.template).foldl
        (replaceOrAppend WorkflowTemplate.id)
        (Db.templates ⟨[], [], []⟩) :=
  persist_pair_c2_amended pipeMkId (.error ()) (.error ()) pipeSynth
    (fun _ => true) ⟨[], [], []⟩ [pipeEvent1, pipeEvent2] (fun _ => rfl)

end Rewind
